import Mathlib

/-!
Verification development for `src/pitch/cleanup_pitch.py` (PlanExe).

The module under verification wraps a single structured chat-completion call:
`CleanupPitch.execute` validates its two arguments, composes a two-message
conversation from a fixed system prompt and the caller's user prompt, invokes
the model, records call duration (rounded up to whole seconds) and the UTF-8
byte length of the raw reply, merges that bookkeeping into the client's
metadata, parses the raw reply as JSON, and wraps everything in a
`CleanupPitch` record.  `to_dict` flattens a record into one mapping and
`save_raw` writes that mapping as indented JSON text.

Modelling conventions:
* Python `dict`s are association lists (`Dict`) whose `set` operation updates
  an existing key in place (Python's `d[k] = v` keeps the key's position) and
  appends a fresh key at the end, exactly like insertion-ordered dicts.
* JSON values are the inductive `Json`.  JSON numbers are modelled as
  arbitrary-precision integers; fractional/exponent literals and the
  non-standard `NaN`/`Infinity` extensions of Python's parser are outside the
  model (no value this module produces or consumes depends on them).
* Wall-clock time: `time.perf_counter()` is monotonic, so the elapsed time of
  the chat call (`end_time - start_time`) is a single non-negative rational
  carried by the model client (`LLM.elapsed`).
* Failure paths (`raise ValueError`) are the `Except.error` cases of
  `ExecOutcome.result`; the outbound calls actually made are recorded in
  `ExecOutcome.calls` so that "no call happened" / "exactly one call, no
  retry" are provable statements.
-/

/-- JSON values, as produced by `json.loads` / consumed by `json.dumps`.
Objects are insertion-ordered key/value lists (Python dicts). -/
inductive Json where
  | null : Json
  | bool (b : Bool) : Json
  | num (n : Int) : Json
  | str (s : String) : Json
  | arr (xs : List Json) : Json
  | obj (kvs : List (String × Json)) : Json

/-- A Python `dict` with string keys: an insertion-ordered association list. -/
abbrev Dict (V : Type) : Type := List (String × V)

/-- Python `d.get(k)` / `d[k]` lookup: value at the first (hence, in a real
dict, only) occurrence of the key. -/
def Dict.get? {V : Type} : Dict V → String → Option V
  | [], _ => none
  | (k', v) :: rest, k => if k' = k then some v else Dict.get? rest k

/-- Python `d[k] = v`: overwrite in place if the key is present, else append. -/
def Dict.set {V : Type} : Dict V → String → V → Dict V
  | [], k, v => [(k, v)]
  | (k', v') :: rest, k, v =>
      if k' = k then (k, v) :: rest else (k', v') :: Dict.set rest k v

/-- The keys of a dict, in order. -/
def Dict.keys {V : Type} (d : Dict V) : List String := d.map Prod.fst

/-- A real Python dict never holds a key twice. -/
def Dict.Nodup {V : Type} (d : Dict V) : Prop := (Dict.keys d).Nodup

theorem Dict.get?_set_self {V : Type} (d : Dict V) (k : String) (v : V) :
    Dict.get? (Dict.set d k v) k = some v := by
  induction d with
  | nil => simp [Dict.set, Dict.get?]
  | cons hd tl ih =>
      obtain ⟨k', v'⟩ := hd
      by_cases h : k' = k
      · simp [Dict.set, h, Dict.get?]
      · simp [Dict.set, h, Dict.get?, ih]

theorem Dict.get?_set_ne {V : Type} (d : Dict V) (k k' : String) (v : V)
    (h : k' ≠ k) : Dict.get? (Dict.set d k v) k' = Dict.get? d k' := by
  induction d with
  | nil => simp [Dict.set, Dict.get?, Ne.symm h]
  | cons hd tl ih =>
      obtain ⟨k₀, v₀⟩ := hd
      by_cases h0 : k₀ = k
      · subst h0
        simp [Dict.set, Dict.get?, Ne.symm h]
      · simp only [Dict.set, h0, if_false, Dict.get?, ih]

theorem Dict.keys_cons {V : Type} (k₀ : String) (v₀ : V) (tl : Dict V) :
    Dict.keys ((k₀, v₀) :: tl) = k₀ :: Dict.keys tl := rfl

theorem Dict.mem_keys {V : Type} (d : Dict V) (k : String) :
    k ∈ Dict.keys d ↔ ∃ v, (k, v) ∈ d := by
  induction d with
  | nil => simp [Dict.keys]
  | cons hd tl ih =>
      obtain ⟨k₀, v₀⟩ := hd
      constructor
      · intro hmem
        rcases (by simpa [Dict.keys_cons] using hmem : k = k₀ ∨ k ∈ Dict.keys tl) with h | h
        · exact ⟨v₀, by simp [h]⟩
        · obtain ⟨v, hv⟩ := ih.mp h
          exact ⟨v, by simp [hv]⟩
      · rintro ⟨v, hv⟩
        rcases (by simpa using hv : (k, v) = (k₀, v₀) ∨ (k, v) ∈ tl) with h | h
        · simp [Dict.keys_cons, (Prod.mk.injEq .. ▸ h).1]
        · simp [Dict.keys_cons, ih.mpr ⟨v, h⟩]

theorem Dict.keys_set {V : Type} (d : Dict V) (k : String) (v : V) :
    Dict.keys (Dict.set d k v) =
      if k ∈ Dict.keys d then Dict.keys d else Dict.keys d ++ [k] := by
  induction d with
  | nil => simp [Dict.set, Dict.keys]
  | cons hd tl ih =>
      obtain ⟨k₀, v₀⟩ := hd
      by_cases h0 : k₀ = k
      · subst h0
        simp [Dict.set, Dict.keys_cons]
      · rw [show Dict.set ((k₀, v₀) :: tl) k v = (k₀, v₀) :: Dict.set tl k v by
              simp [Dict.set, h0]]
        by_cases hmem : k ∈ Dict.keys tl
        · rw [Dict.keys_cons, Dict.keys_cons, ih, if_pos hmem,
            if_pos (by simp [Dict.keys_cons, hmem])]
        · rw [Dict.keys_cons, Dict.keys_cons, ih, if_neg hmem,
            if_neg (by simp [Dict.keys_cons, hmem, Ne.symm h0])]
          simp

theorem Dict.set_of_not_mem {V : Type} (d : Dict V) (k : String) (v : V)
    (h : k ∉ Dict.keys d) : Dict.set d k v = d ++ [(k, v)] := by
  induction d with
  | nil => simp [Dict.set]
  | cons hd tl ih =>
      obtain ⟨k₀, v₀⟩ := hd
      rw [Dict.keys_cons] at h
      have h1 : k₀ ≠ k := fun hh => h (by simp [hh])
      have h2 : k ∉ Dict.keys tl := fun hh => h (by simp [hh])
      simp [Dict.set, h1, ih h2]

theorem Dict.get?_eq_none_of_not_mem {V : Type} (d : Dict V) (k : String)
    (h : k ∉ Dict.keys d) : Dict.get? d k = none := by
  induction d with
  | nil => rfl
  | cons hd tl ih =>
      obtain ⟨k₀, v₀⟩ := hd
      rw [Dict.keys_cons] at h
      have h1 : k₀ ≠ k := fun hh => h (by simp [hh])
      have h2 : k ∉ Dict.keys tl := fun hh => h (by simp [hh])
      simp [Dict.get?, h1, ih h2]

theorem Dict.mem_keys_of_get?_eq_some {V : Type} (d : Dict V) (k : String)
    (v : V) (h : Dict.get? d k = some v) : k ∈ Dict.keys d := by
  induction d with
  | nil => simp [Dict.get?] at h
  | cons hd tl ih =>
      obtain ⟨k₀, v₀⟩ := hd
      by_cases h0 : k₀ = k
      · simp [Dict.keys_cons, h0]
      · simp only [Dict.get?, h0, if_false] at h
        simp [Dict.keys_cons, ih h]

/-! ### `json.dumps` — serialization

Python's `json.dumps(obj, indent=2)` with default options: `ensure_ascii`
escapes, item separator `","` + newline + indentation, key separator `": "`,
insertion order preserved, empty containers printed inline. -/

/-- Opening brace character (0x7b). -/
def lbrace : Char := Char.ofNat 123

/-- Closing brace character (0x7d). -/
def rbrace : Char := Char.ofNat 125

/-- Decimal digit character for `n < 10`. -/
def digitChar (n : Nat) : Char := Char.ofNat (48 + n)

/-- Lowercase hexadecimal digit character for `n < 16`. -/
def hexChar (n : Nat) : Char :=
  if n < 10 then Char.ofNat (48 + n) else Char.ofNat (87 + n)

/-- Four lowercase hex digits, as in Python's `\uXXXX` escapes. -/
def hex4 (n : Nat) : List Char :=
  [hexChar (n / 4096 % 16), hexChar (n / 256 % 16), hexChar (n / 16 % 16),
   hexChar (n % 16)]

/-- `ensure_ascii` escaping of one character: the seven short escapes, literal
printable ASCII, `\uXXXX` otherwise (surrogate pairs above the BMP). -/
def escapeChar (c : Char) : List Char :=
  if c = '\\' then ['\\', '\\']
  else if c = '"' then ['\\', '"']
  else if c = '\n' then ['\\', 'n']
  else if c = '\t' then ['\\', 't']
  else if c = '\r' then ['\\', 'r']
  else if c = '\x08' then ['\\', 'b']
  else if c = '\x0c' then ['\\', 'f']
  else if 0x20 ≤ c.toNat ∧ c.toNat ≤ 0x7e then [c]
  else if c.toNat < 0x10000 then '\\' :: 'u' :: hex4 c.toNat
  else
    '\\' :: 'u' :: hex4 (0xd800 + (c.toNat - 0x10000) / 0x400) ++
      '\\' :: 'u' :: hex4 (0xdc00 + (c.toNat - 0x10000) % 0x400)

/-- Escape every character of a string body. -/
def escapeString : List Char → List Char
  | [] => []
  | c :: cs => escapeChar c ++ escapeString cs

/-- Decimal digits of `n`, most significant first (accumulator form). -/
def natReprAux : Nat → List Char → List Char
  | n, acc =>
    if h : n < 10 then digitChar (n % 10) :: acc
    else natReprAux (n / 10) (digitChar (n % 10) :: acc)
termination_by n _ => n
decreasing_by
  exact Nat.div_lt_self (Nat.lt_of_lt_of_le (by omega) (Nat.le_refl n)) (by omega)

/-- Decimal representation of a natural number, no leading zeros. -/
def natRepr (n : Nat) : List Char := natReprAux n []

/-- Python `str(int)`: optional minus sign followed by decimal digits. -/
def intRepr (n : Int) : List Char :=
  if n < 0 then '-' :: natRepr n.natAbs else natRepr n.toNat

/-- `n` spaces. -/
def nspaces (n : Nat) : List Char := List.replicate n ' '

mutual

/-- Render a JSON value at indent width `iw` and depth `d` (Python
`json.dumps` with `indent=iw`, closing brackets at depth `d`). -/
def Json.render (iw d : Nat) : Json → List Char
  | Json.null => ['n', 'u', 'l', 'l']
  | Json.bool true => ['t', 'r', 'u', 'e']
  | Json.bool false => ['f', 'a', 'l', 's', 'e']
  | Json.num n => intRepr n
  | Json.str s => '"' :: escapeString s.data ++ ['"']
  | Json.arr [] => ['[', ']']
  | Json.arr (x :: xs) =>
      '[' :: '\n' :: (Json.renderItems iw (d + 1) x xs ++
        '\n' :: nspaces (iw * d) ++ [']'])
  | Json.obj [] => [lbrace, rbrace]
  | Json.obj (p :: ps) =>
      lbrace :: '\n' :: (Json.renderPairs iw (d + 1) p ps ++
        '\n' :: nspaces (iw * d) ++ [rbrace])
termination_by j => sizeOf j
decreasing_by all_goals simp_wf

/-- Render nonempty array items: each on its own indented line, comma-separated. -/
def Json.renderItems (iw d : Nat) : Json → List Json → List Char
  | x, [] => nspaces (iw * d) ++ Json.render iw d x
  | x, y :: ys =>
      nspaces (iw * d) ++ Json.render iw d x ++
        ',' :: '\n' :: Json.renderItems iw d y ys
termination_by x xs => 1 + sizeOf x + sizeOf xs
decreasing_by all_goals (simp_wf <;> omega)

/-- Render nonempty object pairs: `"key": value` lines, comma-separated. -/
def Json.renderPairs (iw d : Nat) : (String × Json) → List (String × Json) → List Char
  | (k, v), [] =>
      nspaces (iw * d) ++ '"' :: escapeString k.data ++ '"' :: ':' :: ' ' ::
        Json.render iw d v
  | (k, v), p :: ps =>
      nspaces (iw * d) ++ '"' :: escapeString k.data ++ '"' :: ':' :: ' ' ::
        Json.render iw d v ++ ',' :: '\n' :: Json.renderPairs iw d p ps
termination_by p ps => 1 + sizeOf p + sizeOf ps
decreasing_by all_goals (simp_wf <;> omega)

end

/-- Python `json.dumps(j, indent=iw)`. -/
def Json.dumps (j : Json) (iw : Nat) : String := String.mk (Json.render iw 0 j)

/-! ### `json.loads` — parsing

Recursive-descent parser following Python's `json` decoder in strict mode:
the four whitespace characters are skipped between tokens, strings reject raw
control characters and understand the eight short escapes plus `\uXXXX`
(surrogate pairs combined; lone surrogates, which Python would admit into the
host string, have no `Char` counterpart and are rejected), numbers follow the
integer grammar with no leading zeros, objects collapse duplicate keys
last-wins like a Python dict.  The `fuel` argument bounds nesting depth,
mirroring Python's recursion limit; `loads` supplies more fuel than any input
can consume. -/

/-- JSON whitespace (Python `json` skips exactly these four). -/
def isJsonWs (c : Char) : Bool := c = ' ' || c = '\t' || c = '\n' || c = '\r'

/-- Skip leading JSON whitespace. -/
def skipWs : List Char → List Char
  | [] => []
  | c :: cs => if isJsonWs c then skipWs cs else c :: cs

/-- Value of a hexadecimal digit character. -/
def hexVal? (c : Char) : Option Nat :=
  if 48 ≤ c.toNat ∧ c.toNat ≤ 57 then some (c.toNat - 48)
  else if 97 ≤ c.toNat ∧ c.toNat ≤ 102 then some (c.toNat - 87)
  else if 65 ≤ c.toNat ∧ c.toNat ≤ 70 then some (c.toNat - 55)
  else none

/-- Parse exactly four hex digits into their value. -/
def parseHex4 : List Char → Option (Nat × List Char)
  | c1 :: c2 :: c3 :: c4 :: r =>
    match hexVal? c1, hexVal? c2, hexVal? c3, hexVal? c4 with
    | some v1, some v2, some v3, some v4 =>
        some (v1 * 4096 + v2 * 256 + v3 * 16 + v4, r)
    | _, _, _, _ => none
  | _ => none

/-- Decode a `\uXXXX` escape body (the part after `\u`): a lone BMP scalar,
or a high surrogate followed by `\u` and a low surrogate, combined.  Lone
surrogates, which Python would admit into the host string, have no `Char`
counterpart and are rejected. -/
def parseUEscape (cs : List Char) : Option (Char × List Char) :=
  match parseHex4 cs with
  | none => none
  | some (h, r1) =>
    if 0xd800 ≤ h ∧ h < 0xdc00 then
      match r1 with
      | b1 :: b2 :: r2 =>
        if b1 = '\\' ∧ b2 = 'u' then
          match parseHex4 r2 with
          | some (l, r3) =>
              if 0xdc00 ≤ l ∧ l < 0xe000 then
                some (Char.ofNat (0x10000 + (h - 0xd800) * 0x400 + (l - 0xdc00)), r3)
              else none
          | none => none
        else none
      | _ => none
    else if 0xdc00 ≤ h ∧ h < 0xe000 then none
    else some (Char.ofNat h, r1)

/-- Decode one escape sequence (the part after the backslash). -/
def parseEscape : List Char → Option (Char × List Char)
  | [] => none
  | e :: cs =>
    if e = '"' then some ('"', cs)
    else if e = '\\' then some ('\\', cs)
    else if e = '/' then some ('/', cs)
    else if e = 'b' then some ('\x08', cs)
    else if e = 'f' then some ('\x0c', cs)
    else if e = 'n' then some ('\n', cs)
    else if e = 'r' then some ('\r', cs)
    else if e = 't' then some ('\t', cs)
    else if e = 'u' then parseUEscape cs
    else none

/-- Decode a string body up to (and consuming) the closing quote; returns the
decoded characters and the remaining input.  Every step consumes at least one
input character, so the `fuel` parameter (a structural-recursion device) never
alters the result when callers supply at least the input length plus one. -/
def parseStringBody : Nat → List Char → Option (List Char × List Char)
  | 0, _ => none
  | _ + 1, [] => none
  | fuel + 1, c :: cs =>
    if c = '"' then some ([], cs)
    else if c = '\\' then
      match parseEscape cs with
      | none => none
      | some (ch, r) =>
          (parseStringBody fuel r).map (fun p => (ch :: p.1, p.2))
    else if c.toNat < 0x20 then none
    else (parseStringBody fuel cs).map (fun p => (c :: p.1, p.2))

/-- Consume a maximal run of decimal digits into an accumulator. -/
def parseDigitsAux : List Char → Nat → (Nat × List Char)
  | [], acc => (acc, [])
  | c :: cs, acc =>
    if 48 ≤ c.toNat ∧ c.toNat ≤ 57 then
      parseDigitsAux cs (acc * 10 + (c.toNat - 48))
    else (acc, c :: cs)

/-- Unsigned integer body of a JSON number: `0`, or a nonzero digit followed
by more digits (leading zeros rejected, as in the JSON grammar). -/
def parseNumBody : List Char → Option (Nat × List Char)
  | [] => none
  | c :: cs =>
    if c = '0' then some (0, cs)
    else if 49 ≤ c.toNat ∧ c.toNat ≤ 57 then
      some (parseDigitsAux cs (c.toNat - 48))
    else none

mutual

/-- Parse one JSON value (after skipping leading whitespace), dispatching on
the first character as Python's decoder does. -/
def Json.parseVal : Nat → List Char → Option (Json × List Char)
  | 0, _ => none
  | fuel + 1, cs =>
    match skipWs cs with
    | [] => none
    | c :: rest =>
      if c = '"' then
        match parseStringBody (rest.length + 1) rest with
        | some (s, r) => some (Json.str (String.mk s), r)
        | none => none
      else if c = lbrace then
        match skipWs rest with
        | c2 :: rest2 =>
            if c2 = rbrace then some (Json.obj [], rest2)
            else Json.parsePairs fuel (c2 :: rest2) []
        | [] => none
      else if c = '[' then
        match skipWs rest with
        | c2 :: rest2 =>
            if c2 = ']' then some (Json.arr [], rest2)
            else Json.parseItems fuel (c2 :: rest2) []
        | [] => none
      else if c = 'n' then
        match rest with
        | 'u' :: 'l' :: 'l' :: r => some (Json.null, r)
        | _ => none
      else if c = 't' then
        match rest with
        | 'r' :: 'u' :: 'e' :: r => some (Json.bool true, r)
        | _ => none
      else if c = 'f' then
        match rest with
        | 'a' :: 'l' :: 's' :: 'e' :: r => some (Json.bool false, r)
        | _ => none
      else if c = '-' then
        match parseNumBody rest with
        | some (n, r) => some (Json.num (-(n : Int)), r)
        | none => none
      else if 48 ≤ c.toNat ∧ c.toNat ≤ 57 then
        match parseNumBody (c :: rest) with
        | some (n, r) => some (Json.num (n : Int), r)
        | none => none
      else none

/-- Parse the items of a nonempty array, accumulating parsed elements. -/
def Json.parseItems : Nat → List Char → List Json → Option (Json × List Char)
  | 0, _, _ => none
  | fuel + 1, cs, acc =>
    match Json.parseVal fuel cs with
    | none => none
    | some (v, r) =>
      match skipWs r with
      | c :: r2 =>
          if c = ',' then Json.parseItems fuel r2 (acc ++ [v])
          else if c = ']' then some (Json.arr (acc ++ [v]), r2)
          else none
      | [] => none

/-- Parse the pairs of a nonempty object, accumulating into a dict
(duplicate keys overwrite, as in a Python dict). -/
def Json.parsePairs : Nat → List Char → Dict Json → Option (Json × List Char)
  | 0, _, _ => none
  | fuel + 1, cs, acc =>
    match skipWs cs with
    | c0 :: r0 =>
      if c0 = '"' then
        match parseStringBody (r0.length + 1) r0 with
        | none => none
        | some (k, r1) =>
          match skipWs r1 with
          | c1 :: r2 =>
            if c1 = ':' then
              match Json.parseVal fuel r2 with
              | none => none
              | some (v, r3) =>
                match skipWs r3 with
                | c2 :: r4 =>
                    if c2 = ',' then
                      Json.parsePairs fuel r4 (Dict.set acc (String.mk k) v)
                    else if c2 = rbrace then
                      some (Json.obj (Dict.set acc (String.mk k) v), r4)
                    else none
                | [] => none
            else none
          | [] => none
      else none
    | [] => none

end

/-- Python `json.loads`: parse one document, allowing only trailing
whitespace.  The fuel exceeds what any input of this length can consume. -/
def Json.loads (s : String) : Option Json :=
  match Json.parseVal (s.data.length + 1) s.data with
  | some (j, rest) => if skipWs rest = [] then some j else none
  | none => none

/-! ### The component under verification: `CleanupPitch`

`execute` takes dynamically-typed arguments (Python has no static guarantee
that `llm` is an `LLM` or `user_prompt` a `str`); `PyObj` models the dynamic
values the `isinstance` checks inspect.  The outbound structured-chat calls
actually performed are recorded in `ExecOutcome.calls`. -/

/-- Roles of `llama_index.core.llms.ChatMessage` used here. -/
inductive MessageRole where
  | system : MessageRole
  | user : MessageRole
  | assistant : MessageRole

/-- A role-tagged chat message. -/
structure ChatMessage where
  role : MessageRole
  content : String

/-- Model of the external `LLM` collaborator:
* `metadata` — the key/value pairs of `dict(llm.metadata)`;
* `class_name` — the string `llm.class_name()` returns;
* `chat_content` — the `message.content` text of
  `llm.as_structured_llm(OutputDocument).chat(msgs)`, a pure function of the
  conversation sent (the structured wrapper is an external collaborator, so
  the text it returns is unconstrained here);
* `elapsed` — the wall-clock seconds the chat call takes
  (`end_time - start_time` between the two `time.perf_counter()` reads;
  non-negative in reality since `perf_counter` is monotonic). -/
structure LLM where
  metadata : Dict Json
  class_name : String
  chat_content : List ChatMessage → String
  elapsed : ℚ

/-- A dynamically-typed Python argument, as far as the `isinstance` checks
in `execute` can distinguish them. -/
inductive PyObj where
  | llm (client : LLM)
  | str (s : String)
  | int (n : Int)
  | pyNone

/-- The `ValueError`s `execute` can raise.  `malformedResponse` carries the
raw reply text whose JSON parse failed (Python chains the underlying
`json.JSONDecodeError` onto the `ValueError`). -/
inductive ExecError where
  | invalidLLM : ExecError
  | invalidQuery : ExecError
  | malformedResponse (raw : String) : ExecError

/-- The pydantic schema the structured call is constrained to:
an object with exactly two required string fields. -/
structure OutputDocument where
  draft_markdown : String
  final_markdown : String

/-- Pydantic validation of a JSON value against `OutputDocument`: both fields
present with string values (extra keys ignored). -/
def OutputDocument.validate : Json → Option OutputDocument
  | Json.obj kvs =>
      match Dict.get? kvs "draft_markdown", Dict.get? kvs "final_markdown" with
      | some (Json.str d), some (Json.str f) => some ⟨d, f⟩
      | _, _ => none
  | _ => none

/-- Python whitespace stripped by `str.strip()` (ASCII part; the prompt below
contains no exotic Unicode spaces). -/
def pyIsSpace (c : Char) : Bool :=
  c = ' ' || c = '\t' || c = '\n' || c = '\x0b' || c = '\x0c' || c = '\r'

/-- Python `s.strip()`: drop leading and trailing whitespace. -/
def pyStrip (s : String) : String :=
  String.mk (((s.data.dropWhile pyIsSpace).reverse.dropWhile pyIsSpace).reverse)
def SYSTEM_PROMPT : String :=
  "\n" ++
  "You are a content formatter. Transform a JSON object containing project pitch sections into a compelling Markdown document.\n" ++
  "\n" ++
  "# Instructions\n" ++
  "\n" ++
  "1.  **Input:** JSON with section titles as keys and content as values.\n" ++
  "\n" ++
  "2.  **Draft Markdown:** Iterate through all sections in the JSON object and perform the following steps:\n" ++
  "    - Convert suitable text into markdown with bulleted lists.\n" ++
  "    - Rewrite sentences to be more impactful and persuasive.\n" ++
  "    - You are encouraged to move sentences around to improve the flow of the text.\n" ++
  "\n" ++
  "3.  **Draft Markdown Restrictions:**\n" ++
  "    - Use ONLY the provided text. Do not add external information (website addresses, contact details, dates, etc.)\n" ++
  "    - Do not remove any sections or section text unless it is irrelevant.\n" ++
  "    - The reformatted pitch must cover the same topics as the original JSON object.\n" ++
  "    - Use newlines before and after headings.\n" ++
  "\n" ++
  "4. **Tone:**\n" ++
  "    - For short, everyday tasks: Use an informal, energetic tone, fewer paragraphs, shorter bullet points.\n" ++
  "\t- For big, strategic projects: Adopt a formal, detailed style, multiple sections, more thorough risk/benefit analysis.\n" ++
  "\n" ++
  "5.  **Final Markdown:**\n" ++
  "    - Take the draft markdown and refine it further.\n" ++
  "    - Bold important keywords or phrases, like **very important words**.\n" ++
  "    - Repair invalid markdown syntax.\n" ++
  "    - Ensure the final markdown is well-structured.\n" ++
  "\n" ++
  "6.  **Final Markdown Restrictions:**\n" ++
  "    - Markdown headings: Use `# Top Level` for the document title. Use `## Second Level` for section titles. Do NOT use more than two levels of headings.\n" ++
  "    - Don't bold headings or subheadings, since they are already formatted.\n" ++
  "\n" ++
  "# Example of markdown formatting\n" ++
  "\n" ++
  "```markdown\n" ++
  "# Document title\n" ++
  "\n" ++
  "## Section Title\n" ++
  "\n" ++
  "Paragraph with text. Use bullet points for lists.\n" ++
  "- I'm a bullet point\n" ++
  "- Another bullet point\n" ++
  "- Yet another bullet point\n" ++
  "\n" ++
  "## Another Section Title\n" ++
  "\n" ++
  "etc.\n" ++
  "\n" ++
  "```\n" ++
  ""
/-- The record the flow produces, one per invocation (the `@dataclass`).
`response` is whatever `json.loads` produced (the dataclass does not enforce
its `dict` annotation at runtime). -/
structure CleanupPitch where
  system_prompt : Option String
  user_prompt : String
  response : Json
  metadata : Dict Json

/-- What one `execute` call did: its returned value (or raised error) and
the outbound structured-chat calls it made, in order. -/
structure ExecOutcome where
  result : Except ExecError CleanupPitch
  calls : List (List ChatMessage)

/-- The `chat_message_list` that `execute` composes for a given user prompt:
the stripped system prompt, then the user prompt verbatim. -/
def executeMessages (user_prompt : String) : List ChatMessage :=
  [⟨MessageRole.system, pyStrip SYSTEM_PROMPT⟩,
   ⟨MessageRole.user, user_prompt⟩]

/-- The `metadata` mapping `execute` builds: a copy of the client's metadata,
then the three bookkeeping assignments in source order (`llm_classname`,
`duration` — `int(ceil(end_time - start_time))` —, `response_byte_count` —
`len(content.encode('utf-8'))`). -/
def executeMetadata (llm : LLM) (content : String) : Dict Json :=
  Dict.set (Dict.set (Dict.set llm.metadata
    "llm_classname" (Json.str llm.class_name))
    "duration" (Json.num (Rat.ceil llm.elapsed)))
    "response_byte_count" (Json.num (Int.ofNat (String.utf8ByteSize content)))

/-- `CleanupPitch.execute(llm, user_prompt)`:
argument checks, two-message conversation, one structured chat call, duration
and byte-count bookkeeping merged over the client metadata, JSON parse of the
raw reply, result construction. -/
def CleanupPitch.execute (llm_arg user_prompt_arg : PyObj) : ExecOutcome :=
  match llm_arg with
  | PyObj.llm llm =>
    match user_prompt_arg with
    | PyObj.str user_prompt =>
      let chat_message_list := executeMessages user_prompt
      let content := llm.chat_content chat_message_list
      let metadata := executeMetadata llm content
      match Json.loads content with
      | none =>
          ⟨Except.error (ExecError.malformedResponse content), [chat_message_list]⟩
      | some json_response =>
          ⟨Except.ok ⟨some (pyStrip SYSTEM_PROMPT), user_prompt, json_response,
              metadata⟩,
            [chat_message_list]⟩
    | _ => ⟨Except.error ExecError.invalidQuery, []⟩
  | _ => ⟨Except.error ExecError.invalidLLM, []⟩

/-- Python `d.copy()` on the value stored in `response`: dicts and lists are
copyable; scalars have no `.copy` and raise (`none`). -/
def pyCopy : Json → Option Json
  | Json.obj kvs => some (Json.obj kvs)
  | Json.arr xs => some (Json.arr xs)
  | _ => none

/-- Python `d[k] = v` on a JSON value: only dicts accept string-key
assignment; anything else raises (`none`). -/
def pySetItem : Json → String → Json → Option Json
  | Json.obj kvs, k, v => some (Json.obj (Dict.set kvs k v))
  | _, _, _ => none

/-- The JSON value `json.dumps` writes for an optional string
(`None` → `null`). -/
def optStrJson : Option String → Json
  | some s => Json.str s
  | none => Json.null

/-- `CleanupPitch.to_dict`: shallow copy of `response`, then conditional
key assignments (overwriting existing keys) per the three flags, which
default to `True` in the source.  `none` models the `TypeError` /
`AttributeError` Python raises when `response` is not a suitable container. -/
def CleanupPitch.to_dict (self : CleanupPitch)
    (include_metadata include_system_prompt include_user_prompt : Bool) :
    Option Json :=
  (pyCopy self.response).bind (fun d0 =>
  (if include_metadata then pySetItem d0 "metadata" (Json.obj self.metadata)
   else some d0).bind (fun d1 =>
  (if include_system_prompt then
     pySetItem d1 "system_prompt" (optStrJson self.system_prompt)
   else some d1).bind (fun d2 =>
  if include_user_prompt then pySetItem d2 "user_prompt" (Json.str self.user_prompt)
  else some d2)))

/-- A file system: path → text content. -/
abbrev FS : Type := Dict String

/-- `CleanupPitch.save_raw`: write `json.dumps(self.to_dict(), indent=2)` to
`file_path`, replacing previous content.  `none` models the exception
propagating out of `to_dict` (Python would leave the file truncated, a path
no stated property touches). -/
def CleanupPitch.save_raw (self : CleanupPitch) (file_path : String) (fs : FS) :
    Option FS :=
  match CleanupPitch.to_dict self true true true with
  | some d => some (Dict.set fs file_path (Json.dumps d 2))
  | none => none

/-- Batteries' executable `Rat.ceil` (the model of `math.ceil`) agrees with
Mathlib's `⌈⌉`. -/
theorem rat_ceil_eq_intCeil (q : ℚ) : q.ceil = ⌈q⌉ := by
  rw [show (⌈q⌉ : ℤ) = -⌊-q⌋ by rw [← Int.ceil_neg, neg_neg]]
  rw [Rat.floor_def, Rat.neg_num, Rat.neg_den]
  unfold Rat.ceil
  rcases eq_or_ne q.den 1 with h | h
  · simp [h]
  · rw [if_neg h]
    have hden : 0 < (q.den : ℤ) := Int.ofNat_pos.mpr q.pos
    have hnd : ¬ ((q.den : ℤ) ∣ q.num) := by
      intro hdvd
      have hdv : q.den ∣ q.num.natAbs := Int.ofNat_dvd.mp (Int.dvd_natAbs.mpr hdvd)
      exact h (Nat.dvd_one.mp (q.reduced ▸ Nat.dvd_gcd hdv (Nat.dvd_refl _)))
    have key : (-q.num) / (q.den : ℤ) = -(q.num / q.den) - 1 := by
      have h1 := Int.emod_add_ediv q.num q.den
      have h2 : 0 < q.num % q.den := lt_of_le_of_ne
        (Int.emod_nonneg _ (ne_of_gt hden))
        (by intro hh; exact hnd (Int.dvd_of_emod_eq_zero hh.symm))
      have h3 : q.num % q.den < q.den := Int.emod_lt_of_pos _ hden
      have key2 : -q.num =
          ((q.den : ℤ) - q.num % q.den) + q.den * (-(q.num / q.den) - 1) := by
        ring_nf; omega
      rw [key2, Int.add_mul_ediv_left _ _ (ne_of_gt hden),
        Int.ediv_eq_zero_of_lt (by omega) (by omega)]
      omega
    omega

/-! ### Characterization of `execute` and its metadata -/

theorem execute_valid (c : LLM) (s : String) :
    CleanupPitch.execute (PyObj.llm c) (PyObj.str s) =
      match Json.loads (c.chat_content (executeMessages s)) with
      | none =>
          ⟨Except.error (ExecError.malformedResponse
              (c.chat_content (executeMessages s))),
            [executeMessages s]⟩
      | some j =>
          ⟨Except.ok ⟨some (pyStrip SYSTEM_PROMPT), s, j,
              executeMetadata c (c.chat_content (executeMessages s))⟩,
            [executeMessages s]⟩ := rfl

theorem execute_ok_elim (c : LLM) (s : String) (r : CleanupPitch)
    (h : (CleanupPitch.execute (PyObj.llm c) (PyObj.str s)).result = Except.ok r) :
    Json.loads (c.chat_content (executeMessages s)) = some r.response ∧
      r = ⟨some (pyStrip SYSTEM_PROMPT), s, r.response,
        executeMetadata c (c.chat_content (executeMessages s))⟩ := by
  rw [execute_valid] at h
  cases hl : Json.loads (c.chat_content (executeMessages s)) with
  | none => rw [hl] at h; exact absurd h (by simp)
  | some j =>
      rw [hl] at h
      simp only [Except.ok.injEq] at h
      subst h
      exact ⟨rfl, rfl⟩

theorem executeMetadata_get_classname (c : LLM) (raw : String) :
    Dict.get? (executeMetadata c raw) "llm_classname" =
      some (Json.str c.class_name) := by
  unfold executeMetadata
  rw [Dict.get?_set_ne _ _ _ _ (by decide), Dict.get?_set_ne _ _ _ _ (by decide),
    Dict.get?_set_self]

theorem executeMetadata_get_duration (c : LLM) (raw : String) :
    Dict.get? (executeMetadata c raw) "duration" =
      some (Json.num (Rat.ceil c.elapsed)) := by
  unfold executeMetadata
  rw [Dict.get?_set_ne _ _ _ _ (by decide), Dict.get?_set_self]

theorem executeMetadata_get_byte_count (c : LLM) (raw : String) :
    Dict.get? (executeMetadata c raw) "response_byte_count" =
      some (Json.num (Int.ofNat (String.utf8ByteSize raw))) := by
  unfold executeMetadata
  rw [Dict.get?_set_self]

theorem executeMetadata_get_other (c : LLM) (raw : String) (k : String)
    (h1 : k ≠ "llm_classname") (h2 : k ≠ "duration")
    (h3 : k ≠ "response_byte_count") :
    Dict.get? (executeMetadata c raw) k = Dict.get? c.metadata k := by
  unfold executeMetadata
  rw [Dict.get?_set_ne _ _ _ _ h3, Dict.get?_set_ne _ _ _ _ h2,
    Dict.get?_set_ne _ _ _ _ h1]

/-! ### Witness stubs -/

/-- Stub client: fixed schema-conforming reply, stale `duration` entry in its
own metadata, 2.3-second chat call. -/
def stubLLM : LLM :=
  ⟨[("model_name", Json.str "stub-model"), ("duration", Json.num 999)],
    "StubLLM",
    fun _ => "\x7b\"draft_markdown\": \"# A\", \"final_markdown\": \"# B\"\x7d",
    ⟨23, 10, by decide, by decide⟩⟩

/-- The outcome of one `execute` call against `stubLLM`. -/
def stubOutcome : ExecOutcome :=
  CleanupPitch.execute (PyObj.llm stubLLM) (PyObj.str "hello")

/-- The result record of that call. -/
def stubResult : CleanupPitch :=
  match stubOutcome.result with
  | Except.ok r => r
  | Except.error _ => ⟨none, "", Json.null, []⟩

/-- Stub client whose reply is not JSON at all. -/
def badLLM : LLM :=
  ⟨[], "BadLLM", fun _ => "not json", ⟨0, 1, by decide, by decide⟩⟩

/-- Stub client whose reply is valid JSON that does not conform to
`OutputDocument`: the empty object. -/
def emptyObjLLM : LLM :=
  ⟨[], "EmptyLLM", fun _ => "\x7b\x7d", ⟨0, 1, by decide, by decide⟩⟩

/-- The result record of an `execute` call against `emptyObjLLM`. -/
def emptyObjResult : CleanupPitch :=
  match (CleanupPitch.execute (PyObj.llm emptyObjLLM) (PyObj.str "p")).result with
  | Except.ok r => r
  | Except.error _ => ⟨none, "", Json.null, []⟩

/-! ### Claims -/

/-- **C2.** For every client and string user prompt, if the raw reply text
returned by the model call is not valid JSON, `execute` fails with the
malformed-response error wrapping the text whose parse failed, returns no
result object, and makes exactly one outbound call (no retry). -/
theorem execute_malformed_reply (c : LLM) (s : String)
    (h : Json.loads (c.chat_content (executeMessages s)) = none) :
    CleanupPitch.execute (PyObj.llm c) (PyObj.str s) =
      ⟨Except.error (ExecError.malformedResponse
          (c.chat_content (executeMessages s))),
        [executeMessages s]⟩ := by
  rw [execute_valid, h]

theorem execute_malformed_reply_witness :
    Json.loads (badLLM.chat_content (executeMessages "query")) = none ∧
      CleanupPitch.execute (PyObj.llm badLLM) (PyObj.str "query") =
        ⟨Except.error (ExecError.malformedResponse "not json"),
          [executeMessages "query"]⟩ :=
  ⟨rfl, execute_malformed_reply badLLM "query" rfl⟩

/-- **C4.** For every successful `execute` call (under the monotonic-clock
guarantee `0 ≤ elapsed`), the `duration` stored in the result metadata is
exactly the ceiling of the wall-clock elapsed seconds of the model call,
it is non-negative, and it is ≥ the floor of the elapsed time. -/
theorem execute_duration_ceiling (c : LLM) (s : String) (r : CleanupPitch)
    (h : (CleanupPitch.execute (PyObj.llm c) (PyObj.str s)).result = Except.ok r)
    (hclock : 0 ≤ c.elapsed) :
    Dict.get? r.metadata "duration" = some (Json.num ⌈c.elapsed⌉) ∧
      0 ≤ ⌈c.elapsed⌉ ∧ ⌊c.elapsed⌋ ≤ ⌈c.elapsed⌉ := by
  obtain ⟨-, hr⟩ := execute_ok_elim c s r h
  refine ⟨?_, Int.ceil_nonneg hclock, Int.floor_le_ceil _⟩
  rw [hr]
  rw [show (⌈c.elapsed⌉ : ℤ) = Rat.ceil c.elapsed from (rat_ceil_eq_intCeil _).symm]
  exact executeMetadata_get_duration c _

theorem execute_duration_ceiling_witness :
    stubOutcome.result = Except.ok stubResult ∧ (0 : ℚ) ≤ stubLLM.elapsed ∧
      Dict.get? stubResult.metadata "duration" = some (Json.num ⌈stubLLM.elapsed⌉) ∧
      Dict.get? stubResult.metadata "duration" = some (Json.num 3) :=
  ⟨rfl, by decide,
    (execute_duration_ceiling stubLLM "hello" stubResult rfl (by decide)).1,
    rfl⟩

/-- **C5.** For every successful `execute` call, the response byte count in
the result metadata equals the UTF-8 byte length of exactly the raw reply
text the JSON parser consumed: the same string is measured and parsed, and
its parse is the result's `response`. -/
theorem execute_byte_count (c : LLM) (s : String) (r : CleanupPitch)
    (h : (CleanupPitch.execute (PyObj.llm c) (PyObj.str s)).result = Except.ok r) :
    Dict.get? r.metadata "response_byte_count" =
        some (Json.num (Int.ofNat (String.utf8ByteSize
          (c.chat_content (executeMessages s))))) ∧
      Json.loads (c.chat_content (executeMessages s)) = some r.response := by
  obtain ⟨hl, hr⟩ := execute_ok_elim c s r h
  exact ⟨by rw [hr]; exact executeMetadata_get_byte_count c _, hl⟩

theorem execute_byte_count_witness :
    stubOutcome.result = Except.ok stubResult ∧
      Dict.get? stubResult.metadata "response_byte_count" =
        some (Json.num 50) :=
  ⟨rfl, ((execute_byte_count stubLLM "hello" stubResult rfl).1).trans (by rfl)⟩

/-- **C7.** For every result whose `response` is a mapping,
`to_dict(result, False, False, False)` returns exactly that mapping — the
same keys bound to the same values, with no `metadata`, `system_prompt` or
`user_prompt` key added. -/
theorem to_dict_no_flags (r : CleanupPitch) (kvs : Dict Json)
    (hresp : r.response = Json.obj kvs) :
    CleanupPitch.to_dict r false false false = some (Json.obj kvs) := by
  simp [CleanupPitch.to_dict, hresp, pyCopy]

theorem to_dict_no_flags_witness :
    stubResult.response =
        Json.obj [("draft_markdown", Json.str "# A"),
          ("final_markdown", Json.str "# B")] ∧
      CleanupPitch.to_dict stubResult false false false =
        some (Json.obj [("draft_markdown", Json.str "# A"),
          ("final_markdown", Json.str "# B")]) :=
  ⟨rfl, to_dict_no_flags stubResult _ rfl⟩

/-- **C8.** Calling `execute` with a client argument that is not an `LLM`
fails immediately with the invalid-client error, and calling it with an
`LLM` client but a non-string user prompt fails immediately with the
invalid-input error; in both cases no outbound model call is made (the call
trace is empty) and no result is produced — both argument checks precede the
call. -/
theorem execute_invalid_arguments (a u : PyObj) (c : LLM)
    (ha : ∀ c', a ≠ PyObj.llm c') (hu : ∀ s', u ≠ PyObj.str s') :
    CleanupPitch.execute a u = ⟨Except.error ExecError.invalidLLM, []⟩ ∧
      CleanupPitch.execute (PyObj.llm c) u =
        ⟨Except.error ExecError.invalidQuery, []⟩ := by
  constructor
  · cases a with
    | llm c' => exact absurd rfl (ha c')
    | str s' => rfl
    | int n => rfl
    | pyNone => rfl
  · cases u with
    | str s' => exact absurd rfl (hu s')
    | llm c' => rfl
    | int n => rfl
    | pyNone => rfl

theorem execute_invalid_arguments_witness :
    CleanupPitch.execute (PyObj.int 0) PyObj.pyNone =
        ⟨Except.error ExecError.invalidLLM, []⟩ ∧
      CleanupPitch.execute (PyObj.llm stubLLM) PyObj.pyNone =
        ⟨Except.error ExecError.invalidQuery, []⟩ :=
  execute_invalid_arguments (PyObj.int 0) PyObj.pyNone stubLLM
    (fun _ h => PyObj.noConfusion h) (fun _ h => PyObj.noConfusion h)

/-- **C9.** For every valid client and string user prompt, `execute` sends
exactly one conversation consisting of exactly two messages — first the
fixed (stripped) system instruction, then the user prompt verbatim — and a
successfully returned result records that same system instruction text in
`system_prompt` and the original user prompt unchanged in `user_prompt`. -/
theorem execute_conversation_and_prompts (c : LLM) (s : String) (r : CleanupPitch)
    (h : (CleanupPitch.execute (PyObj.llm c) (PyObj.str s)).result = Except.ok r) :
    (CleanupPitch.execute (PyObj.llm c) (PyObj.str s)).calls =
        [[⟨MessageRole.system, pyStrip SYSTEM_PROMPT⟩,
          ⟨MessageRole.user, s⟩]] ∧
      r.system_prompt = some (pyStrip SYSTEM_PROMPT) ∧
      r.user_prompt = s := by
  obtain ⟨-, hr⟩ := execute_ok_elim c s r h
  refine ⟨?_, by rw [hr], by rw [hr]⟩
  rw [execute_valid]
  cases Json.loads (c.chat_content (executeMessages s)) <;> rfl

theorem execute_conversation_and_prompts_witness :
    stubOutcome.result = Except.ok stubResult ∧
      stubOutcome.calls =
        [[⟨MessageRole.system, pyStrip SYSTEM_PROMPT⟩,
          ⟨MessageRole.user, "hello"⟩]] ∧
      stubResult.system_prompt = some (pyStrip SYSTEM_PROMPT) ∧
      stubResult.user_prompt = "hello" :=
  ⟨rfl, execute_conversation_and_prompts stubLLM "hello" stubResult rfl⟩

/-- **C10.** For every successful `execute` call, the result metadata binds
`llm_classname` (the client's class identifier), `duration` and
`response_byte_count`, these three overwriting any identically-named entries
of the client's own metadata, while any other key is bound exactly as in the
client's metadata. -/
theorem execute_metadata_merge (c : LLM) (s : String) (r : CleanupPitch)
    (k : String)
    (h : (CleanupPitch.execute (PyObj.llm c) (PyObj.str s)).result = Except.ok r) :
    Dict.get? r.metadata "llm_classname" = some (Json.str c.class_name) ∧
      Dict.get? r.metadata "duration" = some (Json.num (Rat.ceil c.elapsed)) ∧
      Dict.get? r.metadata "response_byte_count" =
        some (Json.num (Int.ofNat (String.utf8ByteSize
          (c.chat_content (executeMessages s))))) ∧
      (k ≠ "llm_classname" → k ≠ "duration" → k ≠ "response_byte_count" →
        Dict.get? r.metadata k = Dict.get? c.metadata k) := by
  obtain ⟨-, hr⟩ := execute_ok_elim c s r h
  rw [hr]
  exact ⟨executeMetadata_get_classname c _, executeMetadata_get_duration c _,
    executeMetadata_get_byte_count c _,
    fun h1 h2 h3 => executeMetadata_get_other c _ k h1 h2 h3⟩

theorem execute_metadata_merge_witness :
    stubOutcome.result = Except.ok stubResult ∧
      Dict.get? stubResult.metadata "llm_classname" =
        some (Json.str "StubLLM") ∧
      Dict.get? stubResult.metadata "duration" = some (Json.num 3) ∧
      Dict.get? stubLLM.metadata "duration" = some (Json.num 999) ∧
      Dict.get? stubResult.metadata "model_name" =
        Dict.get? stubLLM.metadata "model_name" :=
  ⟨rfl, (execute_metadata_merge stubLLM "hello" stubResult "model_name" rfl).1,
    ((execute_metadata_merge stubLLM "hello" stubResult "model_name" rfl).2.1).trans
      (by rfl),
    rfl,
    (execute_metadata_merge stubLLM "hello" stubResult "model_name" rfl).2.2.2
      (by decide) (by decide) (by decide)⟩

/-- **C6.** For every result whose `response` is a mapping,
`to_dict(result, True, True, True)` is a mapping that binds `metadata`,
`system_prompt` and `user_prompt` to the result's fields — overwriting the
response's own value when `response` already contains one of those keys
(last write wins) — and binds every other key exactly as `response` does. -/
theorem to_dict_all_flags (r : CleanupPitch) (kvs d : Dict Json) (k : String)
    (hresp : r.response = Json.obj kvs)
    (hd : CleanupPitch.to_dict r true true true = some (Json.obj d)) :
    Dict.get? d "metadata" = some (Json.obj r.metadata) ∧
      Dict.get? d "system_prompt" = some (optStrJson r.system_prompt) ∧
      Dict.get? d "user_prompt" = some (Json.str r.user_prompt) ∧
      (k ≠ "metadata" → k ≠ "system_prompt" → k ≠ "user_prompt" →
        Dict.get? d k = Dict.get? kvs k) := by
  have hform : CleanupPitch.to_dict r true true true =
      some (Json.obj (Dict.set (Dict.set (Dict.set kvs
        "metadata" (Json.obj r.metadata))
        "system_prompt" (optStrJson r.system_prompt))
        "user_prompt" (Json.str r.user_prompt))) := by
    simp [CleanupPitch.to_dict, hresp, pyCopy, pySetItem]
  rw [hform] at hd
  have hd' : d = Dict.set (Dict.set (Dict.set kvs
      "metadata" (Json.obj r.metadata))
      "system_prompt" (optStrJson r.system_prompt))
      "user_prompt" (Json.str r.user_prompt) := by
    have := Option.some.inj hd
    cases this
    rfl
  subst hd'
  refine ⟨?_, ?_, Dict.get?_set_self .., ?_⟩
  · rw [Dict.get?_set_ne _ _ _ _ (by decide), Dict.get?_set_ne _ _ _ _ (by decide),
      Dict.get?_set_self]
  · rw [Dict.get?_set_ne _ _ _ _ (by decide), Dict.get?_set_self]
  · intro h1 h2 h3
    rw [Dict.get?_set_ne _ _ _ _ h3, Dict.get?_set_ne _ _ _ _ h2,
      Dict.get?_set_ne _ _ _ _ h1]

/-- The mapping `to_dict(stubResult, True, True, True)` produces. -/
def stubFullDict : Dict Json :=
  match CleanupPitch.to_dict stubResult true true true with
  | some (Json.obj d) => d
  | _ => []

theorem to_dict_all_flags_witness :
    stubResult.response =
        Json.obj [("draft_markdown", Json.str "# A"),
          ("final_markdown", Json.str "# B")] ∧
      CleanupPitch.to_dict stubResult true true true =
        some (Json.obj stubFullDict) ∧
      Dict.get? stubFullDict "metadata" = some (Json.obj stubResult.metadata) ∧
      Dict.get? stubFullDict "system_prompt" =
        some (optStrJson stubResult.system_prompt) ∧
      Dict.get? stubFullDict "user_prompt" =
        some (Json.str stubResult.user_prompt) ∧
      Dict.get? stubFullDict "draft_markdown" =
        Dict.get? [("draft_markdown", Json.str "# A"),
          ("final_markdown", Json.str "# B")] "draft_markdown" :=
  ⟨rfl, rfl,
    (to_dict_all_flags stubResult _ stubFullDict "draft_markdown" rfl rfl).1,
    (to_dict_all_flags stubResult _ stubFullDict "draft_markdown" rfl rfl).2.1,
    (to_dict_all_flags stubResult _ stubFullDict "draft_markdown" rfl rfl).2.2.1,
    (to_dict_all_flags stubResult _ stubFullDict "draft_markdown" rfl rfl).2.2.2
      (by decide) (by decide) (by decide)⟩

/-- **C1, counterexample.** `execute` accepts a reply of a shape other than
`OutputSchema`: against a client whose (structured-call) reply text is the
valid JSON `\x7b\x7d`, `execute` returns a result whose `response` is the empty
mapping — `draft_markdown` and `final_markdown` are absent — and which fails
`OutputDocument` validation.  Nothing in `execute` itself re-validates the
parsed reply against the schema. -/
theorem execute_accepts_nonconforming_reply :
    (CleanupPitch.execute (PyObj.llm emptyObjLLM) (PyObj.str "p")).result =
        Except.ok emptyObjResult ∧
      emptyObjResult.response = Json.obj [] ∧
      Dict.get? [] "draft_markdown" = (none : Option Json) ∧
      OutputDocument.validate emptyObjResult.response = none :=
  ⟨rfl, rfl, rfl, rfl⟩

/-- **C1, amended.** Whenever the raw reply text parses as JSON conforming to
`OutputSchema` — an object carrying `draft_markdown` and `final_markdown`
with string values — a successful `execute` call returns a result whose
`response` is exactly that object, with both fields present as strings.
(`execute` itself performs no schema validation beyond the JSON parse, and
the structured-decoding wrapper is an external collaborator, so replies of
other shapes are also accepted — see the counterexample.) -/
theorem execute_schema_conforming_reply (c : LLM) (s : String)
    (r : CleanupPitch) (kvs : Dict Json) (doc : OutputDocument)
    (h : (CleanupPitch.execute (PyObj.llm c) (PyObj.str s)).result = Except.ok r)
    (hparse : Json.loads (c.chat_content (executeMessages s)) =
      some (Json.obj kvs))
    (hvalid : OutputDocument.validate (Json.obj kvs) = some doc) :
    r.response = Json.obj kvs ∧
      Dict.get? kvs "draft_markdown" = some (Json.str doc.draft_markdown) ∧
      Dict.get? kvs "final_markdown" = some (Json.str doc.final_markdown) := by
  obtain ⟨hl, -⟩ := execute_ok_elim c s r h
  rw [hparse] at hl
  have hresp : r.response = Json.obj kvs := (Option.some.inj hl).symm
  refine ⟨hresp, ?_⟩
  have hv2 : (match Dict.get? kvs "draft_markdown",
        Dict.get? kvs "final_markdown" with
      | some (Json.str d), some (Json.str f) =>
          some (⟨d, f⟩ : OutputDocument)
      | _, _ => none) = some doc := hvalid
  split at hv2
  · next d f hd hf =>
      cases Option.some.inj hv2
      exact ⟨hd, hf⟩
  · exact absurd hv2 (by simp)

theorem execute_schema_conforming_reply_witness :
    stubOutcome.result = Except.ok stubResult ∧
      Json.loads (stubLLM.chat_content (executeMessages "hello")) =
        some (Json.obj [("draft_markdown", Json.str "# A"),
          ("final_markdown", Json.str "# B")]) ∧
      OutputDocument.validate (Json.obj [("draft_markdown", Json.str "# A"),
          ("final_markdown", Json.str "# B")]) =
        some ⟨"# A", "# B"⟩ ∧
      stubResult.response =
        Json.obj [("draft_markdown", Json.str "# A"),
          ("final_markdown", Json.str "# B")] ∧
      Dict.get? [("draft_markdown", Json.str "# A"),
          ("final_markdown", Json.str "# B")] "draft_markdown" =
        some (Json.str "# A") :=
  ⟨rfl, rfl, rfl,
    (execute_schema_conforming_reply stubLLM "hello" stubResult _ ⟨"# A", "# B"⟩
      rfl rfl rfl).1,
    (execute_schema_conforming_reply stubLLM "hello" stubResult _ ⟨"# A", "# B"⟩
      rfl rfl rfl).2.1⟩

/-! ### Round-trip between `dumps` and `loads`: auxiliary development -/

theorem char_toNat_ofNat {n : Nat} (h : n.isValidChar) :
    (Char.ofNat n).toNat = n := by
  rw [Char.ofNat, dif_pos h]; rfl

theorem char_valid_range (c : Char) :
    c.toNat < 0xd800 ∨ (0xdfff < c.toNat ∧ c.toNat < 0x110000) := c.valid

theorem char_eq_iff_toNat {a b : Char} : a = b ↔ a.toNat = b.toNat := by
  constructor
  · intro h; rw [h]
  · intro h
    exact Char.ext (by
      have : a.val.toBitVec.toNat = b.val.toBitVec.toNat := h
      exact UInt32.eq_of_toBitVec_eq (BitVec.eq_of_toNat_eq this))

theorem digitChar_toNat {d : Nat} (h : d < 10) : (digitChar d).toNat = 48 + d :=
  char_toNat_ofNat (Or.inl (by omega))

mutual

/-- Well-formedness of a JSON value produced on the Python side: every
object's keys are distinct (a Python dict cannot hold one key twice). -/
def Json.wellFormed : Json → Bool
  | Json.arr xs => Json.wellFormedItems xs
  | Json.obj kvs => decide ((Dict.keys kvs).Nodup) && Json.wellFormedPairs kvs
  | _ => true
termination_by j => sizeOf j
decreasing_by all_goals simp_wf

/-- All items of an array are well-formed. -/
def Json.wellFormedItems : List Json → Bool
  | [] => true
  | x :: xs => Json.wellFormed x && Json.wellFormedItems xs
termination_by xs => sizeOf xs
decreasing_by all_goals (simp_wf <;> omega)

/-- All values of an object are well-formed. -/
def Json.wellFormedPairs : List (String × Json) → Bool
  | [] => true
  | (_, v) :: ps => Json.wellFormed v && Json.wellFormedPairs ps
termination_by ps => sizeOf ps
decreasing_by all_goals (simp_wf <;> omega)

end

mutual

/-- Fuel sufficient for `parseVal` to parse this value's rendering. -/
def Json.needFuel : Json → Nat
  | Json.arr (x :: xs) => 1 + Json.needFuelItems x xs
  | Json.obj (p :: ps) => 1 + Json.needFuelPairs p ps
  | _ => 1
termination_by j => sizeOf j
decreasing_by all_goals simp_wf

/-- Fuel sufficient for `parseItems` over these rendered items. -/
def Json.needFuelItems : Json → List Json → Nat
  | x, [] => 1 + Json.needFuel x
  | x, y :: ys => 1 + Json.needFuel x + Json.needFuelItems y ys
termination_by x xs => 1 + sizeOf x + sizeOf xs
decreasing_by all_goals (simp_wf <;> omega)

/-- Fuel sufficient for `parsePairs` over these rendered pairs. -/
def Json.needFuelPairs : (String × Json) → List (String × Json) → Nat
  | (_, v), [] => 1 + Json.needFuel v
  | (_, v), p :: ps => 1 + Json.needFuel v + Json.needFuelPairs p ps
termination_by p ps => 1 + sizeOf p + sizeOf ps
decreasing_by all_goals (simp_wf <;> omega)

end

theorem skipWs_cons_of_ws {c : Char} (h : isJsonWs c = true) (l : List Char) :
    skipWs (c :: l) = skipWs l := by
  simp [skipWs, h]

theorem skipWs_cons_of_not_ws {c : Char} (h : isJsonWs c = false) (l : List Char) :
    skipWs (c :: l) = c :: l := by
  simp [skipWs, h]

theorem skipWs_nspaces (n : Nat) (l : List Char) :
    skipWs (nspaces n ++ l) = skipWs l := by
  induction n with
  | zero => simp [nspaces]
  | succ m ih =>
      rw [nspaces, List.replicate_succ, List.cons_append,
        skipWs_cons_of_ws (by decide)]
      exact ih

theorem skipWs_newline (l : List Char) : skipWs ('\n' :: l) = skipWs l :=
  skipWs_cons_of_ws (by decide) l

/-- The continuation after a rendered number may not begin with a digit
(the greedy digit scan must stop there). -/
def NoDigitHead (l : List Char) : Prop :=
  ∀ c, l.head? = some c → c.toNat < 48 ∨ 57 < c.toNat

theorem noDigitHead_nil : NoDigitHead [] := by intro c h; simp at h

theorem noDigitHead_cons {c : Char} (h : c.toNat < 48 ∨ 57 < c.toNat)
    (l : List Char) : NoDigitHead (c :: l) := by
  intro c' hc'
  simp at hc'
  exact hc' ▸ h

/-! #### Decimal numbers -/

theorem natReprAux_eq_append (n : Nat) : ∀ acc, natReprAux n acc = natRepr n ++ acc := by
  induction n using Nat.strong_induction_on with
  | _ n ih =>
      intro acc
      by_cases h : n < 10
      · rw [natRepr]
        unfold natReprAux
        simp [h]
      · have hd : n / 10 < n := Nat.div_lt_self (by omega) (by omega)
        rw [natRepr]
        unfold natReprAux
        rw [dif_neg h, dif_neg h, ih _ hd, ih _ hd]
        simp

theorem natRepr_digits (n : Nat) : ∀ c ∈ natRepr n, 48 ≤ c.toNat ∧ c.toNat ≤ 57 := by
  induction n using Nat.strong_induction_on with
  | _ n ih =>
      intro c hc
      by_cases h : n < 10
      · rw [natRepr] at hc
        unfold natReprAux at hc
        simp [h] at hc
        subst hc
        rw [digitChar_toNat (Nat.mod_lt _ (by omega))]
        omega
      · have hd : n / 10 < n := Nat.div_lt_self (by omega) (by omega)
        rw [natRepr] at hc
        unfold natReprAux at hc
        rw [dif_neg h, natReprAux_eq_append] at hc
        rcases List.mem_append.mp hc with h1 | h1
        · exact ih _ hd c h1
        · simp at h1
          subst h1
          rw [digitChar_toNat (Nat.mod_lt _ (by omega))]
          omega

/-- The numeric value a maximal digit scan accumulates. -/
def digitsVal (l : List Char) (a : Nat) : Nat :=
  l.foldl (fun x c => x * 10 + (c.toNat - 48)) a

theorem digitsVal_natRepr (n : Nat) : digitsVal (natRepr n) 0 = n := by
  induction n using Nat.strong_induction_on with
  | _ n ih =>
      by_cases h : n < 10
      · rw [natRepr]
        unfold natReprAux
        simp only [h, dif_pos, digitsVal, List.foldl_cons, List.foldl_nil]
        rw [digitChar_toNat (Nat.mod_lt _ (show 0 < 10 by omega))]
        omega
      · have hd : n / 10 < n := Nat.div_lt_self (by omega) (by omega)
        rw [natRepr]
        unfold natReprAux
        rw [dif_neg h, natReprAux_eq_append]
        unfold digitsVal
        rw [List.foldl_append]
        have := ih _ hd
        unfold digitsVal at this
        rw [this]
        simp [digitChar_toNat (Nat.mod_lt _ (show 0 < 10 by omega))]
        omega

theorem parseDigitsAux_spec : ∀ (l rest : List Char) (a : Nat),
    (∀ c ∈ l, 48 ≤ c.toNat ∧ c.toNat ≤ 57) → NoDigitHead rest →
    parseDigitsAux (l ++ rest) a = (digitsVal l a, rest) := by
  intro l
  induction l with
  | nil =>
      intro rest a _ hrest
      cases rest with
      | nil => simp [parseDigitsAux, digitsVal]
      | cons c cs =>
          have hc := hrest c rfl
          simp only [List.nil_append, parseDigitsAux, digitsVal, List.foldl_nil]
          rw [if_neg (by omega)]
  | cons c l ih =>
      intro rest a hl hrest
      have hc := hl c (by simp)
      simp only [List.cons_append, parseDigitsAux]
      rw [if_pos (by omega)]
      exact ih rest _ (fun c' hc' => hl c' (by simp [hc'])) hrest

theorem natRepr_head (n : Nat) (h : 1 ≤ n) :
    ∃ d tail, natRepr n = digitChar d :: tail ∧ 1 ≤ d ∧ d ≤ 9 ∧
      (∀ c ∈ tail, 48 ≤ c.toNat ∧ c.toNat ≤ 57) := by
  induction n using Nat.strong_induction_on with
  | _ n ih =>
      by_cases hlt : n < 10
      · refine ⟨n, [], ?_, h, by omega, by simp⟩
        rw [natRepr]
        unfold natReprAux
        simp [hlt, Nat.mod_eq_of_lt hlt]
      · have hd : n / 10 < n := Nat.div_lt_self (by omega) (by omega)
        have hd1 : 1 ≤ n / 10 := by
          rw [Nat.le_div_iff_mul_le (by omega)]; omega
        obtain ⟨d, tail, heq, hd1', hd9, htail⟩ := ih _ hd hd1
        refine ⟨d, tail ++ [digitChar (n % 10)], ?_, hd1', hd9, ?_⟩
        · rw [natRepr]
          unfold natReprAux
          rw [dif_neg hlt, natReprAux_eq_append, heq]
          simp
        · intro c hc
          rcases List.mem_append.mp hc with h1 | h1
          · exact htail c h1
          · simp at h1
            subst h1
            rw [digitChar_toNat (Nat.mod_lt _ (by omega))]
            omega

theorem digitChar_ne_zeroChar {d : Nat} (h1 : 1 ≤ d) (h9 : d ≤ 9) :
    ¬ (digitChar d = '0') := by
  rw [char_eq_iff_toNat, digitChar_toNat (by omega)]
  intro hh
  have : ('0').toNat = 48 := by decide
  omega

theorem parseNumBody_natRepr (n : Nat) (rest : List Char)
    (hrest : NoDigitHead rest) :
    parseNumBody (natRepr n ++ rest) = some (n, rest) := by
  rcases Nat.eq_zero_or_pos n with rfl | hn
  · have h0 : natRepr 0 = ['0'] := by
      rw [natRepr]; unfold natReprAux; simp
      decide
    rw [h0]
    simp [parseNumBody]
  · obtain ⟨d, tail, heq, h1, h9, htail⟩ := natRepr_head n hn
    rw [heq]
    simp only [List.cons_append, parseNumBody]
    rw [if_neg (digitChar_ne_zeroChar h1 h9),
      if_pos (by rw [digitChar_toNat (by omega)]; omega)]
    rw [parseDigitsAux_spec tail rest _ htail hrest]
    have hval : digitsVal (natRepr n) 0 = n := digitsVal_natRepr n
    rw [heq] at hval
    unfold digitsVal at hval ⊢
    simp only [List.foldl_cons] at hval
    rw [digitChar_toNat (by omega)] at hval ⊢
    simpa using hval


/-! #### Strings -/

theorem hexVal_hexChar : ∀ x, x < 16 → hexVal? (hexChar x) = some x := by decide

theorem parseHex4_hex4 (v : Nat) (hv : v < 0x10000) (t : List Char) :
    parseHex4 (hex4 v ++ t) = some (v, t) := by
  simp only [hex4, List.cons_append, List.nil_append, parseHex4,
    hexVal_hexChar _ (Nat.mod_lt _ (show 0 < 16 by omega))]
  exact congrArg (fun x => some (x, t)) (by omega)

theorem parseUEscape_bmp (v : Nat) (hv : v < 0x10000)
    (hs : ¬ (0xd800 ≤ v ∧ v < 0xe000)) (t : List Char) :
    parseUEscape (hex4 v ++ t) = some (Char.ofNat v, t) := by
  unfold parseUEscape
  rw [parseHex4_hex4 v hv]
  dsimp only
  rw [if_neg (by omega), if_neg (by omega)]

theorem parseUEscape_pair (A B : Nat) (hA1 : 0xd800 ≤ A) (hA2 : A < 0xdc00)
    (hB1 : 0xdc00 ≤ B) (hB2 : B < 0xe000) (t : List Char) :
    parseUEscape (hex4 A ++ ('\\' :: 'u' :: (hex4 B ++ t))) =
      some (Char.ofNat (0x10000 + (A - 0xd800) * 0x400 + (B - 0xdc00)), t) := by
  unfold parseUEscape
  rw [parseHex4_hex4 A (by omega)]
  dsimp only
  rw [if_pos (show 0xd800 ≤ A ∧ A < 0xdc00 from ⟨hA1, hA2⟩),
    if_pos (show ('\\' : Char) = '\\' ∧ ('u' : Char) = 'u' from ⟨rfl, rfl⟩),
    parseHex4_hex4 B (by omega)]
  dsimp only
  rw [if_pos (show 0xdc00 ≤ B ∧ B < 0xe000 from ⟨hB1, hB2⟩)]

theorem parseUEscape_supplementary (v : Nat) (h1 : 0x10000 ≤ v)
    (h2 : v < 0x110000) (t : List Char) :
    parseUEscape (hex4 (0xd800 + (v - 0x10000) / 0x400) ++
        ('\\' :: 'u' :: (hex4 (0xdc00 + (v - 0x10000) % 0x400) ++ t))) =
      some (Char.ofNat v, t) := by
  have hhi : (v - 0x10000) / 0x400 < 0x400 := by omega
  have hlo : (v - 0x10000) % 0x400 < 0x400 := Nat.mod_lt _ (by omega)
  rw [parseUEscape_pair _ _ (by omega) (by omega) (by omega) (by omega) t]
  exact congrArg (fun x => some (Char.ofNat x, t)) (by omega)

theorem parseStringBody_backslash (f : Nat) (cs : List Char) :
    parseStringBody (f + 1) ('\\' :: cs) =
      match parseEscape cs with
      | none => none
      | some (ch, r) =>
          (parseStringBody f r).map (fun p => (ch :: p.1, p.2)) := by
  simp [parseStringBody]

theorem parseStringBody_literal (f : Nat) {c : Char} (h2 : ¬ c = '"')
    (h1 : ¬ c = '\\') (h0 : ¬ c.toNat < 0x20) (cs : List Char) :
    parseStringBody (f + 1) (c :: cs) =
      (parseStringBody f cs).map (fun p => (c :: p.1, p.2)) := by
  simp only [parseStringBody]
  rw [if_neg h2, if_neg h1, if_neg h0]

theorem parseEscape_u (cs : List Char) :
    parseEscape ('u' :: cs) = parseUEscape cs := by
  simp [parseEscape]

theorem parseStringBody_escapeString : ∀ (l : List Char) (fuel : Nat)
    (rest : List Char), l.length + 1 ≤ fuel →
    parseStringBody fuel (escapeString l ++ '"' :: rest) = some (l, rest) := by
  intro l
  induction l with
  | nil =>
      intro fuel rest hf
      obtain ⟨f, rfl⟩ : ∃ f, fuel = f + 1 := ⟨fuel - 1, by omega⟩
      simp [escapeString, parseStringBody]
  | cons c l ih =>
      intro fuel rest hf
      obtain ⟨f, rfl⟩ : ∃ f, fuel = f + 1 := ⟨fuel - 1, by omega⟩
      have hrec := ih f rest (by simp at hf ⊢; omega)
      rw [escapeString, List.append_assoc]
      unfold escapeChar
      by_cases h1 : c = '\\'
      · subst h1
        rw [if_pos rfl]
        simp only [List.cons_append, List.nil_append]
        rw [parseStringBody_backslash]
        simp [parseEscape, hrec]
      rw [if_neg h1]
      by_cases h2 : c = '"'
      · subst h2
        rw [if_pos rfl]
        simp only [List.cons_append, List.nil_append]
        rw [parseStringBody_backslash]
        simp [parseEscape, hrec]
      rw [if_neg h2]
      by_cases h3 : c = '\n'
      · subst h3
        rw [if_pos rfl]
        simp only [List.cons_append, List.nil_append]
        rw [parseStringBody_backslash]
        simp [parseEscape, hrec]
      rw [if_neg h3]
      by_cases h4 : c = '\t'
      · subst h4
        rw [if_pos rfl]
        simp only [List.cons_append, List.nil_append]
        rw [parseStringBody_backslash]
        simp [parseEscape, hrec]
      rw [if_neg h4]
      by_cases h5 : c = '\r'
      · subst h5
        rw [if_pos rfl]
        simp only [List.cons_append, List.nil_append]
        rw [parseStringBody_backslash]
        simp [parseEscape, hrec]
      rw [if_neg h5]
      by_cases h6 : c = '\x08'
      · subst h6
        rw [if_pos rfl]
        simp only [List.cons_append, List.nil_append]
        rw [parseStringBody_backslash]
        simp [parseEscape, hrec]
      rw [if_neg h6]
      by_cases h7 : c = '\x0c'
      · subst h7
        rw [if_pos rfl]
        simp only [List.cons_append, List.nil_append]
        rw [parseStringBody_backslash]
        simp [parseEscape, hrec]
      rw [if_neg h7]
      by_cases h8 : 0x20 ≤ c.toNat ∧ c.toNat ≤ 0x7e
      · rw [if_pos h8]
        simp only [List.cons_append, List.nil_append]
        rw [parseStringBody_literal f h2 h1 (by omega), hrec]
        rfl
      rw [if_neg h8]
      have hval := char_valid_range c
      by_cases h9 : c.toNat < 0x10000
      · rw [if_pos h9]
        simp only [List.cons_append, List.append_assoc]
        rw [parseStringBody_backslash, parseEscape_u,
          parseUEscape_bmp c.toNat h9 (by omega)]
        dsimp only
        rw [hrec]
        simp [Char.ofNat_toNat]
      rw [if_neg h9]
      simp only [List.cons_append, List.append_assoc]
      rw [parseStringBody_backslash, parseEscape_u]
      rw [parseUEscape_supplementary c.toNat (by omega) (by omega)]
      dsimp only
      rw [hrec]
      simp [Char.ofNat_toNat]

/-! #### Numbers at the value level -/

theorem natRepr_zero : natRepr 0 = ['0'] := by
  rw [natRepr]; unfold natReprAux; simp; decide

theorem parseVal_natRepr (fuel : Nat) (n : Nat) (rest : List Char)
    (hrest : NoDigitHead rest) :
    Json.parseVal (fuel + 1) (natRepr n ++ rest) =
      some (Json.num (Int.ofNat n), rest) := by
  have hPN := parseNumBody_natRepr n rest hrest
  rcases Nat.eq_zero_or_pos n with rfl | hn
  · rw [natRepr_zero] at hPN ⊢
    simp only [List.cons_append, List.nil_append] at hPN ⊢
    rw [Json.parseVal]
    rw [skipWs_cons_of_not_ws (by decide)]
    simp [hPN, lbrace]
  · obtain ⟨d, tail, heq, h1, h9, htail⟩ := natRepr_head n hn
    rw [heq] at hPN ⊢
    have hd10 : d < 10 := by omega
    interval_cases d <;>
      (simp only [digitChar, List.cons_append] at hPN ⊢
       rw [Json.parseVal]
       rw [skipWs_cons_of_not_ws (by decide)]
       simp [hPN, digitChar, lbrace])

theorem parseVal_intRepr (fuel : Nat) (n : Int) (rest : List Char)
    (hrest : NoDigitHead rest) :
    Json.parseVal (fuel + 1) (intRepr n ++ rest) = some (Json.num n, rest) := by
  unfold intRepr
  by_cases hn : n < 0
  · rw [if_pos hn]
    simp only [List.cons_append]
    rw [Json.parseVal]
    rw [skipWs_cons_of_not_ws (by decide)]
    simp only [parseNumBody_natRepr _ _ hrest]
    exact congrArg (fun m => some (Json.num m, rest)) (by omega)
  · rw [if_neg hn]
    rw [parseVal_natRepr fuel n.toNat rest hrest]
    exact congrArg (fun m => some (Json.num m, rest))
      (Int.toNat_of_nonneg (by omega))

/-! #### Scaffolding for the main induction -/

theorem stringMk_data (s : String) : String.mk s.data = s := rfl

theorem escapeChar_length_pos (c : Char) : 1 ≤ (escapeChar c).length := by
  unfold escapeChar
  split_ifs <;> simp [hex4]

theorem escapeString_length (l : List Char) :
    l.length ≤ (escapeString l).length := by
  induction l with
  | nil => simp [escapeString]
  | cons c l ih =>
      rw [escapeString]
      have := escapeChar_length_pos c
      simp only [List.length_append, List.length_cons]
      omega

theorem parseVal_congr (g : Nat) (cs cs' : List Char)
    (h : skipWs cs = skipWs cs') :
    Json.parseVal g cs = Json.parseVal g cs' := by
  cases g with
  | zero => rfl
  | succ f => rw [Json.parseVal, Json.parseVal, h]

theorem parseItems_congr (g : Nat) (cs cs' : List Char) (acc : List Json)
    (h : skipWs cs = skipWs cs') :
    Json.parseItems g cs acc = Json.parseItems g cs' acc := by
  cases g with
  | zero => rfl
  | succ f =>
      rw [Json.parseItems, Json.parseItems, parseVal_congr f cs cs' h]

theorem parsePairs_congr (g : Nat) (cs cs' : List Char) (acc : Dict Json)
    (h : skipWs cs = skipWs cs') :
    Json.parsePairs g cs acc = Json.parsePairs g cs' acc := by
  cases g with
  | zero => rfl
  | succ f => rw [Json.parsePairs, Json.parsePairs, h]

theorem needFuel_pos (j : Json) : 1 ≤ Json.needFuel j := by
  cases j with
  | arr xs => cases xs <;> (unfold Json.needFuel; omega)
  | obj kvs => cases kvs <;> (unfold Json.needFuel; omega)
  | null => unfold Json.needFuel; omega
  | bool b => unfold Json.needFuel; omega
  | num n => unfold Json.needFuel; omega
  | str s => unfold Json.needFuel; omega

theorem needFuelItems_pos (x : Json) (xs : List Json) :
    1 ≤ Json.needFuelItems x xs := by
  cases xs <;> (unfold Json.needFuelItems; omega)

theorem needFuelPairs_pos (p : String × Json) (ps : List (String × Json)) :
    1 ≤ Json.needFuelPairs p ps := by
  obtain ⟨k, v⟩ := p
  cases ps <;> (unfold Json.needFuelPairs; omega)

theorem isJsonWs_false_of_toNat {c : Char} (h : c.toNat ≠ 32 ∧ c.toNat ≠ 9 ∧
    c.toNat ≠ 10 ∧ c.toNat ≠ 13) : isJsonWs c = false := by
  unfold isJsonWs
  have h1 : ¬ (c = ' ') := fun hh => h.1 (by rw [hh]; rfl)
  have h2 : ¬ (c = '\t') := fun hh => h.2.1 (by rw [hh]; rfl)
  have h3 : ¬ (c = '\n') := fun hh => h.2.2.1 (by rw [hh]; rfl)
  have h4 : ¬ (c = '\r') := fun hh => h.2.2.2 (by rw [hh]; rfl)
  simp [h1, h2, h3, h4]

/-- The first character of any rendered JSON value: never whitespace, never a
closing bracket. -/
theorem render_head (iw d : Nat) (j : Json) :
    ∃ c cs, Json.render iw d j = c :: cs ∧ isJsonWs c = false ∧ c ≠ ']' := by
  cases j with
  | null => exact ⟨'n', _, by rw [Json.render], by decide, by decide⟩
  | bool b => cases b with
      | true => exact ⟨'t', _, by rw [Json.render], by decide, by decide⟩
      | false => exact ⟨'f', _, by rw [Json.render], by decide, by decide⟩
  | str s =>
      exact ⟨'"', escapeString s.data ++ ['"'],
        by rw [Json.render, List.cons_append], by decide, by decide⟩
  | arr xs => cases xs with
      | nil => exact ⟨'[', _, by rw [Json.render], by decide, by decide⟩
      | cons x xs =>
          exact ⟨'[', '\n' :: (Json.renderItems iw (d + 1) x xs ++
              '\n' :: nspaces (iw * d) ++ [']']),
            by rw [Json.render], by decide, by decide⟩
  | obj kvs => cases kvs with
      | nil => exact ⟨lbrace, _, by rw [Json.render], by decide, by decide⟩
      | cons p ps =>
          exact ⟨lbrace, '\n' :: (Json.renderPairs iw (d + 1) p ps ++
              '\n' :: nspaces (iw * d) ++ [rbrace]),
            by rw [Json.render], by decide, by decide⟩
  | num n =>
      unfold Json.render intRepr
      by_cases hn : n < 0
      · rw [if_pos hn]
        exact ⟨'-', _, rfl, by decide, by decide⟩
      · rw [if_neg hn]
        rcases Nat.eq_zero_or_pos n.toNat with h0 | hpos
        · rw [h0, natRepr_zero]
          exact ⟨'0', _, rfl, by decide, by decide⟩
        · obtain ⟨dg, tail, heq, h1, h9, -⟩ := natRepr_head _ hpos
          rw [heq]
          refine ⟨digitChar dg, tail, rfl, ?_, ?_⟩
          · exact isJsonWs_false_of_toNat
              (by rw [digitChar_toNat (by omega)]; omega)
          · rw [Ne, char_eq_iff_toNat, digitChar_toNat (by omega)]
            intro hh
            have : (']').toNat = 93 := rfl
            omega

theorem Dict.keys_append {V : Type} (a b : Dict V) :
    Dict.keys (a ++ b) = Dict.keys a ++ Dict.keys b := by
  simp [Dict.keys]

theorem skipWs_renderItems (iw d : Nat) (x : Json) (xs : List Json)
    (t : List Char) :
    ∃ c cs, isJsonWs c = false ∧ c ≠ ']' ∧
      skipWs ('\n' :: (Json.renderItems iw d x xs ++ t)) = c :: cs ∧
      skipWs (Json.renderItems iw d x xs ++ t) = c :: cs := by
  obtain ⟨c, cs0, hx, hws, hne⟩ := render_head iw d x
  cases xs with
  | nil =>
      have h2 : skipWs (Json.renderItems iw d x [] ++ t) = c :: (cs0 ++ t) := by
        rw [Json.renderItems, List.append_assoc, skipWs_nspaces, hx,
          List.cons_append, skipWs_cons_of_not_ws hws]
      exact ⟨c, cs0 ++ t, hws, hne, by rw [skipWs_newline, h2], h2⟩
  | cons y ys =>
      have h2 : skipWs (Json.renderItems iw d x (y :: ys) ++ t) =
          c :: (cs0 ++ (',' :: '\n' :: (Json.renderItems iw d y ys ++ t))) := by
        rw [Json.renderItems, List.append_assoc, List.append_assoc,
          skipWs_nspaces, hx, List.cons_append, skipWs_cons_of_not_ws hws]
        simp
      exact ⟨c, cs0 ++ (',' :: '\n' :: (Json.renderItems iw d y ys ++ t)),
        hws, hne, by rw [skipWs_newline, h2], h2⟩

theorem skipWs_renderPairs (iw d : Nat) (p : String × Json)
    (ps : List (String × Json)) (t : List Char) :
    ∃ cs, skipWs ('\n' :: (Json.renderPairs iw d p ps ++ t)) = '"' :: cs ∧
      skipWs (Json.renderPairs iw d p ps ++ t) = '"' :: cs := by
  obtain ⟨k, v⟩ := p
  cases ps with
  | nil =>
      have h2 : skipWs (Json.renderPairs iw d (k, v) [] ++ t) =
          '"' :: (escapeString k.data ++ '"' :: ':' :: ' ' ::
            (Json.render iw d v ++ t)) := by
        rw [Json.renderPairs]
        simp only [List.append_assoc, List.cons_append]
        rw [skipWs_nspaces, skipWs_cons_of_not_ws (by decide)]
      exact ⟨_, by rw [skipWs_newline, h2], h2⟩
  | cons q qs =>
      have h2 : skipWs (Json.renderPairs iw d (k, v) (q :: qs) ++ t) =
          '"' :: (escapeString k.data ++ '"' :: ':' :: ' ' ::
            (Json.render iw d v ++ ',' :: '\n' ::
              (Json.renderPairs iw d q qs ++ t))) := by
        rw [Json.renderPairs]
        simp only [List.append_assoc, List.cons_append]
        rw [skipWs_nspaces, skipWs_cons_of_not_ws (by decide)]
      exact ⟨_, by rw [skipWs_newline, h2], h2⟩

theorem parseStringBody_escaped (l rest : List Char) :
    parseStringBody ((escapeString l ++ '"' :: rest).length + 1)
      (escapeString l ++ '"' :: rest) = some (l, rest) :=
  parseStringBody_escapeString l _ rest (by
    have := escapeString_length l
    simp only [List.length_append, List.length_cons]
    omega)


theorem parseVal_nspaces (g n : Nat) (l : List Char) :
    Json.parseVal g (nspaces n ++ l) = Json.parseVal g l :=
  parseVal_congr g _ _ (skipWs_nspaces n l)

theorem parseVal_space (g : Nat) (l : List Char) :
    Json.parseVal g (' ' :: l) = Json.parseVal g l :=
  parseVal_congr g _ _ (skipWs_cons_of_ws (by decide) l)

theorem parseItems_newline (g : Nat) (l : List Char) (acc : List Json) :
    Json.parseItems g ('\n' :: l) acc = Json.parseItems g l acc :=
  parseItems_congr g _ _ acc (skipWs_newline l)

theorem parsePairs_newline (g : Nat) (l : List Char) (acc : Dict Json) :
    Json.parsePairs g ('\n' :: l) acc = Json.parsePairs g l acc :=
  parsePairs_congr g _ _ acc (skipWs_newline l)

theorem noDigitHead_comma (l : List Char) : NoDigitHead (',' :: l) :=
  noDigitHead_cons (by decide) l

theorem noDigitHead_newline (l : List Char) : NoDigitHead ('\n' :: l) :=
  noDigitHead_cons (by decide) l

theorem roundtrip_induction : ∀ fuel : Nat,
    (∀ (iw d : Nat) (j : Json) (rest : List Char),
        Json.wellFormed j = true → Json.needFuel j ≤ fuel → NoDigitHead rest →
        Json.parseVal fuel (Json.render iw d j ++ rest) = some (j, rest)) ∧
    (∀ (iw d : Nat) (x : Json) (xs : List Json) (acc : List Json) (k : Nat)
        (rest : List Char),
        Json.wellFormedItems (x :: xs) = true →
        Json.needFuelItems x xs ≤ fuel →
        Json.parseItems fuel
          (Json.renderItems iw d x xs ++ '\n' :: (nspaces k ++ ']' :: rest))
          acc = some (Json.arr (acc ++ x :: xs), rest)) ∧
    (∀ (iw d : Nat) (p : String × Json) (ps : List (String × Json))
        (acc : Dict Json) (k : Nat) (rest : List Char),
        Json.wellFormedPairs (p :: ps) = true →
        (Dict.keys (acc ++ p :: ps)).Nodup →
        Json.needFuelPairs p ps ≤ fuel →
        Json.parsePairs fuel
          (Json.renderPairs iw d p ps ++ '\n' :: (nspaces k ++ rbrace :: rest))
          acc = some (Json.obj (acc ++ p :: ps), rest)) := by
  intro fuel
  induction fuel with
  | zero =>
      refine ⟨?_, ?_, ?_⟩
      · intro iw d j rest _ hfe _
        exact absurd hfe (by have := needFuel_pos j; omega)
      · intro iw d x xs acc k rest _ hfe
        exact absurd hfe (by have := needFuelItems_pos x xs; omega)
      · intro iw d p ps acc k rest _ _ hfe
        exact absurd hfe (by have := needFuelPairs_pos p ps; omega)
  | succ f ih =>
      obtain ⟨ihV, ihI, ihP⟩ := ih
      refine ⟨?_, ?_, ?_⟩
      · -- `parseVal` over a rendered value
        intro iw d j rest hwf hfe hrest
        cases j with
        | null =>
            rw [Json.render]
            simp only [List.cons_append, List.nil_append]
            rw [Json.parseVal, skipWs_cons_of_not_ws (by decide)]
            simp [lbrace]
        | bool b =>
            cases b <;>
              (rw [Json.render]
               simp only [List.cons_append, List.nil_append]
               rw [Json.parseVal, skipWs_cons_of_not_ws (by decide)]
               simp [lbrace])
        | num n =>
            rw [Json.render]
            exact parseVal_intRepr f n rest hrest
        | str s =>
            rw [Json.render]
            simp only [List.cons_append, List.append_assoc, List.nil_append]
            rw [Json.parseVal, skipWs_cons_of_not_ws (by decide)]
            simp only []
            rw [parseStringBody_escaped s.data rest]
            simp [stringMk_data]
        | arr xs =>
            cases xs with
            | nil =>
                rw [Json.render]
                simp only [List.cons_append, List.nil_append]
                rw [Json.parseVal, skipWs_cons_of_not_ws (by decide)]
                simp [skipWs, isJsonWs, lbrace]
            | cons x xs =>
                rw [Json.wellFormed] at hwf
                rw [Json.needFuel] at hfe
                obtain ⟨c, cs, hcws, hcne, hskip1, hskip2⟩ :=
                  skipWs_renderItems iw (d + 1) x xs
                    ('\n' :: (nspaces (iw * d) ++ ']' :: rest))
                rw [Json.render]
                simp only [List.cons_append, List.nil_append, List.append_assoc]
                rw [Json.parseVal, skipWs_cons_of_not_ws (by decide)]
                simp only []
                rw [if_neg (show ¬ (('[' : Char) = '"') from by decide),
                  if_neg (show ¬ (('[' : Char) = lbrace) from by decide),
                  if_pos trivial]
                rw [hskip1]
                simp only []
                rw [if_neg hcne]
                rw [parseItems_congr f (c :: cs)
                  (Json.renderItems iw (d + 1) x xs ++
                    '\n' :: (nspaces (iw * d) ++ ']' :: rest)) []
                  (by rw [skipWs_cons_of_not_ws hcws, hskip2])]
                rw [ihI iw (d + 1) x xs [] (iw * d) rest hwf (by omega)]
                simp
        | obj kvs =>
            cases kvs with
            | nil =>
                rw [Json.render]
                simp only [List.cons_append, List.nil_append]
                rw [Json.parseVal, skipWs_cons_of_not_ws (by decide)]
                simp only []
                rw [if_neg (show ¬ (lbrace = '"') from by decide),
                  if_pos trivial, skipWs_cons_of_not_ws (by decide)]
                simp only []
                rw [if_pos trivial]
            | cons p ps =>
                rw [Json.wellFormed] at hwf
                rw [Json.needFuel] at hfe
                rw [Bool.and_eq_true] at hwf
                obtain ⟨hnd, hwfp⟩ := hwf
                have hnd' : (Dict.keys (p :: ps)).Nodup := of_decide_eq_true hnd
                obtain ⟨cs, hskip1, hskip2⟩ := skipWs_renderPairs iw (d + 1) p ps
                  ('\n' :: (nspaces (iw * d) ++ rbrace :: rest))
                rw [Json.render]
                simp only [List.cons_append, List.nil_append, List.append_assoc]
                rw [Json.parseVal, skipWs_cons_of_not_ws (by decide)]
                simp only []
                rw [if_neg (show ¬ (lbrace = '"') from by decide),
                  if_pos trivial, hskip1]
                simp only []
                rw [if_neg (show ¬ (('"' : Char) = rbrace) from by decide)]
                rw [parsePairs_congr f ('"' :: cs)
                  (Json.renderPairs iw (d + 1) p ps ++
                    '\n' :: (nspaces (iw * d) ++ rbrace :: rest)) []
                  (by rw [skipWs_cons_of_not_ws (by decide), hskip2])]
                rw [ihP iw (d + 1) p ps [] (iw * d) rest hwfp
                  (by simpa using hnd') (by omega)]
                simp
      · -- `parseItems` over rendered items
        intro iw d x xs acc k rest hwf hfe
        rw [Json.wellFormedItems, Bool.and_eq_true] at hwf
        obtain ⟨hwfx, hwfxs⟩ := hwf
        cases xs with
        | nil =>
            rw [Json.needFuelItems] at hfe
            rw [Json.renderItems]
            simp only [List.append_assoc]
            rw [Json.parseItems]
            rw [parseVal_nspaces, ihV iw d x _ hwfx (by omega)
              (noDigitHead_newline _)]
            simp only []
            rw [skipWs_newline, skipWs_nspaces,
              skipWs_cons_of_not_ws (by decide)]
            simp only []
            rw [if_neg (show ¬ ((']' : Char) = ',') from by decide),
              if_pos trivial]
        | cons y ys =>
            rw [Json.needFuelItems] at hfe
            rw [Json.renderItems]
            simp only [List.append_assoc, List.cons_append]
            rw [Json.parseItems]
            rw [parseVal_nspaces, ihV iw d x _ hwfx (by omega)
              (noDigitHead_comma _)]
            simp only []
            rw [skipWs_cons_of_not_ws (by decide)]
            simp only []
            rw [if_pos trivial]
            rw [parseItems_newline]
            rw [ihI iw d y ys (acc ++ [x]) k rest hwfxs (by omega)]
            simp
      · -- `parsePairs` over rendered pairs
        intro iw d p ps acc k rest hwf hnd hfe
        obtain ⟨k0, v⟩ := p
        rw [Json.wellFormedPairs, Bool.and_eq_true] at hwf
        obtain ⟨hwfv, hwfps⟩ := hwf
        have hmem : k0 ∉ Dict.keys acc := by
          rw [Dict.keys_append] at hnd
          intro hk
          exact (List.nodup_append.mp hnd).2.2 hk (by simp [Dict.keys_cons])
        cases ps with
        | nil =>
            rw [Json.needFuelPairs] at hfe
            rw [Json.renderPairs]
            simp only [List.append_assoc, List.cons_append]
            rw [Json.parsePairs]
            rw [skipWs_nspaces, skipWs_cons_of_not_ws (by decide)]
            simp only []
            rw [if_pos trivial, parseStringBody_escaped k0.data]
            simp only []
            rw [skipWs_cons_of_not_ws (by decide)]
            simp only []
            rw [if_pos trivial]
            rw [parseVal_space, ihV iw d v _ hwfv (by omega)
              (noDigitHead_newline _)]
            simp only []
            rw [skipWs_newline, skipWs_nspaces,
              skipWs_cons_of_not_ws (by decide)]
            simp only []
            rw [if_neg (show ¬ (rbrace = ',') from by decide), if_pos trivial]
            rw [stringMk_data, Dict.set_of_not_mem acc k0 v hmem]
        | cons q qs =>
            rw [Json.needFuelPairs] at hfe
            rw [Json.renderPairs]
            simp only [List.append_assoc, List.cons_append]
            rw [Json.parsePairs]
            rw [skipWs_nspaces, skipWs_cons_of_not_ws (by decide)]
            simp only []
            rw [if_pos trivial, parseStringBody_escaped k0.data]
            simp only []
            rw [skipWs_cons_of_not_ws (by decide)]
            simp only []
            rw [if_pos trivial]
            rw [parseVal_space, ihV iw d v _ hwfv (by omega)
              (noDigitHead_comma _)]
            simp only []
            rw [skipWs_cons_of_not_ws (by decide)]
            simp only []
            rw [if_pos trivial]
            rw [stringMk_data, Dict.set_of_not_mem acc k0 v hmem,
              parsePairs_newline]
            rw [ihP iw d q qs (acc ++ [(k0, v)]) k rest hwfps
              (by simpa [List.append_assoc] using hnd) (by omega)]
            simp

theorem natRepr_length_pos (n : Nat) : 1 ≤ (natRepr n).length := by
  unfold natRepr
  rw [natReprAux]
  by_cases h : n < 10
  · rw [dif_pos h]; simp
  · rw [dif_neg h, natReprAux_eq_append]; simp

theorem intRepr_length_pos (n : Int) : 1 ≤ (intRepr n).length := by
  unfold intRepr
  by_cases h : n < 0
  · rw [if_pos h]; simp
  · rw [if_neg h]; exact natRepr_length_pos _

mutual

theorem needFuel_le_render (iw d : Nat) (j : Json) :
    Json.needFuel j ≤ (Json.render iw d j).length := by
  cases j with
  | null => rw [Json.needFuel, Json.render] <;> simp
  | bool b => cases b <;> (rw [Json.needFuel, Json.render] <;> simp)
  | num n =>
      rw [Json.needFuel, Json.render]
      · exact intRepr_length_pos n
      all_goals simp
  | str s => rw [Json.needFuel, Json.render] <;> simp
  | arr xs =>
      cases xs with
      | nil => rw [Json.needFuel, Json.render] <;> simp
      | cons x xs =>
          rw [Json.needFuel, Json.render]
          have := needFuelItems_le_render iw (d + 1) x xs
          simp only [List.length_cons, List.length_append]
          omega
  | obj ps =>
      cases ps with
      | nil => rw [Json.needFuel, Json.render] <;> simp
      | cons p ps =>
          rw [Json.needFuel, Json.render]
          have := needFuelPairs_le_render iw (d + 1) p ps
          simp only [List.length_cons, List.length_append]
          omega
termination_by sizeOf j
decreasing_by all_goals simp_wf

theorem needFuelItems_le_render (iw d : Nat) (x : Json) (xs : List Json) :
    Json.needFuelItems x xs ≤ (Json.renderItems iw d x xs).length + 1 := by
  cases xs with
  | nil =>
      rw [Json.needFuelItems, Json.renderItems]
      have := needFuel_le_render iw d x
      simp only [List.length_append]
      omega
  | cons y ys =>
      rw [Json.needFuelItems, Json.renderItems]
      have h1 := needFuel_le_render iw d x
      have h2 := needFuelItems_le_render iw d y ys
      simp only [List.length_append, List.length_cons]
      omega
termination_by 1 + sizeOf x + sizeOf xs
decreasing_by all_goals (simp_wf <;> omega)

theorem needFuelPairs_le_render (iw d : Nat) (p : String × Json)
    (ps : List (String × Json)) :
    Json.needFuelPairs p ps ≤ (Json.renderPairs iw d p ps).length + 1 := by
  obtain ⟨k, v⟩ := p
  cases ps with
  | nil =>
      rw [Json.needFuelPairs, Json.renderPairs]
      have := needFuel_le_render iw d v
      simp only [List.length_append, List.length_cons]
      omega
  | cons q qs =>
      rw [Json.needFuelPairs, Json.renderPairs]
      have h1 := needFuel_le_render iw d v
      have h2 := needFuelPairs_le_render iw d q qs
      simp only [List.length_append, List.length_cons]
      omega
termination_by 1 + sizeOf p + sizeOf ps
decreasing_by all_goals (simp_wf <;> omega)

end

/-- `json.loads` inverts `json.dumps(·, indent=2)` on any value whose object
keys are duplicate-free throughout. -/
theorem loads_dumps (j : Json) (h : Json.wellFormed j = true) :
    Json.loads (Json.dumps j 2) = some j := by
  have hdata : (Json.dumps j 2).data = Json.render 2 0 j := rfl
  rw [Json.loads, hdata]
  have hmain := (roundtrip_induction ((Json.render 2 0 j).length + 1)).1
    2 0 j [] h (by have := needFuel_le_render 2 0 j; omega) noDigitHead_nil
  rw [List.append_nil] at hmain
  rw [hmain]
  simp [skipWs]

theorem wellFormed_str (s : String) : Json.wellFormed (Json.str s) = true := by
  rw [Json.wellFormed] <;> simp

theorem wellFormed_num (n : Int) : Json.wellFormed (Json.num n) = true := by
  rw [Json.wellFormed] <;> simp

/-- **C3.** Round-trip law: whenever `to_dict(result, True, True, True)`
yields a mapping `d` (and `d`, built from Python dicts, has duplicate-free
object keys throughout), `save_raw(result, file_path)` leaves the file
holding exactly `json.dumps(d, indent=2)`, and parsing that text back with
`json.loads` yields a mapping equal to `d`. -/
theorem save_raw_roundtrip (r : CleanupPitch) (file_path : String)
    (fs fs' : FS) (d : Json)
    (hdict : CleanupPitch.to_dict r true true true = some d)
    (hwf : Json.wellFormed d = true)
    (hsave : CleanupPitch.save_raw r file_path fs = some fs') :
    Dict.get? fs' file_path = some (Json.dumps d 2) ∧
      Json.loads (Json.dumps d 2) = some d := by
  unfold CleanupPitch.save_raw at hsave
  rw [hdict] at hsave
  have hfs : fs' = Dict.set fs file_path (Json.dumps d 2) :=
    (Option.some.inj hsave).symm
  rw [hfs]
  exact ⟨Dict.get?_set_self fs file_path _, loads_dumps d hwf⟩

/-- The file system `save_raw(stubResult, "out.json")` produces on an
initially empty one. -/
def stubFS : FS :=
  match CleanupPitch.save_raw stubResult "out.json" [] with
  | some fs => fs
  | none => []

theorem stubFullDict_explicit : stubFullDict =
    [("draft_markdown", Json.str "# A"),
     ("final_markdown", Json.str "# B"),
     ("metadata", Json.obj [("model_name", Json.str "stub-model"),
        ("duration", Json.num 3), ("llm_classname", Json.str "StubLLM"),
        ("response_byte_count", Json.num 50)]),
     ("system_prompt", Json.str (pyStrip SYSTEM_PROMPT)),
     ("user_prompt", Json.str "hello")] := rfl

theorem stubFullDict_wellFormed :
    Json.wellFormed (Json.obj stubFullDict) = true := by
  rw [stubFullDict_explicit]
  rw [Json.wellFormed, Bool.and_eq_true]
  refine ⟨by decide, ?_⟩
  rw [Json.wellFormedPairs, Bool.and_eq_true]
  refine ⟨wellFormed_str _, ?_⟩
  rw [Json.wellFormedPairs, Bool.and_eq_true]
  refine ⟨wellFormed_str _, ?_⟩
  rw [Json.wellFormedPairs, Bool.and_eq_true]
  refine ⟨?_, ?_⟩
  · rw [Json.wellFormed, Bool.and_eq_true]
    refine ⟨by decide, ?_⟩
    rw [Json.wellFormedPairs, Bool.and_eq_true]
    refine ⟨wellFormed_str _, ?_⟩
    rw [Json.wellFormedPairs, Bool.and_eq_true]
    refine ⟨wellFormed_num _, ?_⟩
    rw [Json.wellFormedPairs, Bool.and_eq_true]
    refine ⟨wellFormed_str _, ?_⟩
    rw [Json.wellFormedPairs, Bool.and_eq_true]
    exact ⟨wellFormed_num _, by rw [Json.wellFormedPairs]⟩
  · rw [Json.wellFormedPairs, Bool.and_eq_true]
    refine ⟨wellFormed_str _, ?_⟩
    rw [Json.wellFormedPairs, Bool.and_eq_true]
    exact ⟨wellFormed_str _, by rw [Json.wellFormedPairs]⟩

theorem save_raw_roundtrip_witness :
    CleanupPitch.to_dict stubResult true true true =
        some (Json.obj stubFullDict) ∧
      Json.wellFormed (Json.obj stubFullDict) = true ∧
      CleanupPitch.save_raw stubResult "out.json" [] = some stubFS ∧
      Dict.get? stubFS "out.json" =
        some (Json.dumps (Json.obj stubFullDict) 2) ∧
      Json.loads (Json.dumps (Json.obj stubFullDict) 2) =
        some (Json.obj stubFullDict) := by
  have hdict : CleanupPitch.to_dict stubResult true true true =
      some (Json.obj stubFullDict) := rfl
  have hsave : CleanupPitch.save_raw stubResult "out.json" [] =
      some stubFS := rfl
  obtain ⟨h1, h2⟩ := save_raw_roundtrip stubResult "out.json" [] stubFS
    (Json.obj stubFullDict) hdict stubFullDict_wellFormed hsave
  exact ⟨hdict, stubFullDict_wellFormed, hsave, h1, h2⟩
